import Mathlib

/-!
# Shallow embedding of `dependencygraph.py` (class `DependencyGraph`)

This file embeds the `DependencyGraph` class of the repository in Lean 4 and
proves / refutes the frozen claims about it.

Modelling conventions:
* Python `dict`s keyed by node address are modelled by insertion-ordered
  association lists `List (Int × Node)`; the `defaultdict` auto-creation of
  `self.nodes` is modelled explicitly at each access site, exactly where the
  Python code triggers it.
* A node is a record whose fields are `Option`-typed: `none` means the key is
  absent from the Python dict (so reading it raises `KeyError`).  The `TOP`
  sentinel's explicit `None` values (`word`, `lemma`, `feats`) are also
  modelled as `none`: no operation in scope ever distinguishes an explicitly
  `None` field from an absent one (the sentinel is filtered out of
  serialization before its fields are read).
* The `deps` entry of a node is normally a relation-keyed multimap
  (`Deps.dmap`, an insertion-ordered association list `String → List Int`),
  but `redirect_arcs` in the source replaces it wholesale by a plain Python
  list; the sum type `Deps` captures both shapes.  Iterating a Python dict
  yields its keys, so iterating a `dmap` yields relation labels
  (`DepEntry.lbl`), while iterating a flat list yields its elements.
* Python exceptions (`ValueError` from unpacking / `int()` / the unsupported
  column count, `KeyError`, `TypeError`, `DependencyGraphError`) become the
  constructors of `PyErr`, and fallible operations return `Except PyErr _`.
* Python `int` is modelled as `Int` (addresses and heads are small; no
  overflow concerns).  `int(s)` on a whitespace-free cell is modelled by
  `pyInt` (optional sign followed by a non-empty digit string).
* `str.split()` (no separator: split on whitespace runs, dropping empty
  pieces) and `str.split(sep)` (keep empty pieces) are modelled by
  `pySplitCells`; `str.rstrip()` by `pyRstrip`.  `Char.isWhitespace` covers
  the ASCII whitespace (space, tab, newline, carriage return) that can occur
  in the formats in scope.
* File access in `load` is modelled by passing the file's full content as a
  string; everything after `infile.read()` follows the source.
-/

/-! ## Python string primitives -/

/-- Python `str.rstrip()`: drop trailing whitespace. -/
def pyRstrip (s : String) : String :=
  ⟨(s.data.reverse.dropWhile Char.isWhitespace).reverse⟩

/-- Python `str.split()` with no separator: the maximal whitespace-free
runs, in order (leading/trailing/repeated whitespace yields no empty
tokens).  `acc` holds the current token reversed. -/
def wsTokens : List Char → List Char → List String
  | [], acc => if acc.isEmpty then [] else [⟨acc.reverse⟩]
  | c :: cs, acc =>
    if c.isWhitespace then
      if acc.isEmpty then wsTokens cs [] else ⟨acc.reverse⟩ :: wsTokens cs []
    else wsTokens cs (c :: acc)

/-- Strip `sep` from the front of `l`, if it is a prefix. -/
def dropSep? : List Char → List Char → Option (List Char)
  | [], l => some l
  | _ :: _, [] => none
  | s :: ss, c :: cs => if c = s then dropSep? ss cs else none

/-- Python `str.split(sep)` over char lists (empty pieces kept), with
structural fuel: every step consumes at least one character of the
remaining input, so `fuel = input length` suffices. -/
def splitOnFuel (sep : List Char) : Nat → List Char → List Char → List String
  | _, [], acc => [⟨acc.reverse⟩]
  | 0, l, acc => [⟨acc.reverse ++ l⟩]
  | fuel + 1, l, acc =>
    match dropSep? sep l with
    | some rest => ⟨acc.reverse⟩ :: splitOnFuel sep fuel rest []
    | none =>
      match l with
      | [] => [⟨acc.reverse⟩]
      | c :: cs => splitOnFuel sep fuel cs (c :: acc)

/-- Python `str.split(sep)` with an explicit separator.  (Python raises on
an empty separator; no caller in scope passes one — we return the whole
string, as core Lean does.) -/
def pySplitOn (s sep : String) : List String :=
  match sep.data with
  | [] => [s]
  | ss => splitOnFuel ss s.data.length s.data []

/-- Python `str.split(cell_separator)`: with `none` split on whitespace runs
dropping empty cells, with `some sep` split on the separator keeping empty
cells. -/
def pySplitCells : Option String → String → List String
  | none, s => wsTokens s.data []
  | some sep, s => pySplitOn s sep

/-- Value of a decimal digit character, if it is one. -/
def charDigit? (c : Char) : Option Nat :=
  if '0' ≤ c ∧ c ≤ '9' then some (c.toNat - '0'.toNat) else none

/-- Accumulate a digit string into a natural number; `none` on a non-digit. -/
def digitsToNatAux : List Char → Nat → Option Nat
  | [], acc => some acc
  | c :: cs, acc =>
    match charDigit? c with
    | none => none
    | some d => digitsToNatAux cs (acc * 10 + d)

/-- A non-empty all-digit string as a natural number. -/
def digitsToNat? : List Char → Option Nat
  | [] => none
  | cs => digitsToNatAux cs 0

/-- Python `int(s)` on a whitespace-free string: optional sign, then a
non-empty digit string; `none` models the `ValueError`. -/
def pyInt (s : String) : Option Int :=
  match s.data with
  | '-' :: rest => (digitsToNat? rest).map (fun n => -(n : Int))
  | '+' :: rest => (digitsToNat? rest).map (fun n => (n : Int))
  | cs => (digitsToNat? cs).map (fun n => (n : Int))

/-! ## Data model -/

/-- One element of the flat list produced by `redirect_arcs`: either a node
address or a relation label (Python's dynamic typing allows the mix). -/
inductive DepEntry where
  | addr (a : Int)
  | lbl (s : String)
deriving DecidableEq, Repr

/-- The `deps` entry of a node: normally a relation-keyed multimap
(insertion-ordered association list), but `redirect_arcs` replaces it by a
plain list. -/
inductive Deps where
  | dmap (m : List (String × List Int))
  | dlist (l : List DepEntry)
deriving DecidableEq, Repr

/-- A node dict.  `none` in an `Option` field means the key is absent. -/
structure Node where
  address : Option Int := none
  word : Option String := none
  lemma_ : Option String := none
  ctag : Option String := none
  tag : Option String := none
  feats : Option String := none
  head : Option Int := none
  rel : Option String := none
  deps : Deps := .dmap []
deriving DecidableEq, Repr

/-- The fresh node produced by the `defaultdict` factory
`lambda: {'deps': defaultdict(list)}`. -/
def emptyNode : Node := {}

/-- The `TOP` sentinel installed at address 0 by `__init__`. -/
def topNode : Node :=
  { ctag := some "TOP", tag := some "TOP", rel := some "TOP", address := some 0 }

/-- Python exceptions raised by the class. -/
inductive PyErr where
  /-- The `ValueError` «Number of tab-delimited fields ... not supported»,
  raised both by `_parse` (payload: cell count) and `to_conll`
  (payload: style). -/
  | valueErrorFields (n : Int)
  /-- `ValueError` from tuple-unpacking a cell list of the wrong length. -/
  | valueErrorUnpack
  /-- `ValueError` from `int()` on a non-numeral. -/
  | valueErrorInt (s : String)
  /-- `KeyError` reading an absent dict key. -/
  | keyError (k : String)
  /-- `TypeError` (e.g. indexing a list with a string). -/
  | typeError
  /-- The `DependencyGraphError` raised when no node depends on `TOP`. -/
  | dependencyGraphError
deriving DecidableEq, Repr

/-- The graph: insertion-ordered node map plus the `root` reference (we
record the root's address; the source stores the node dict itself). -/
structure DependencyGraph where
  nodes : List (Int × Node)
  root : Option Int
deriving DecidableEq, Repr

/-- First-match association-list lookup (Python dict lookup; keys are unique
in every reachable graph). -/
def lookupNode : List (Int × Node) → Int → Option Node
  | [], _ => none
  | (b, nd) :: t, a => if b = a then some nd else lookupNode t a

/-- Update the value at a key in place, or append a fresh
`f emptyNode` entry (the `defaultdict` auto-creation followed by `f`). -/
def updAssoc (l : List (Int × Node)) (a : Int) (f : Node → Node) :
    List (Int × Node) :=
  match l with
  | [] => [(a, f emptyNode)]
  | (b, nd) :: t => if b = a then (b, f nd) :: t else (b, nd) :: updAssoc t a f

/-- Bucket lookup in a relation multimap; an absent relation is the empty
list (`defaultdict(list)`). -/
def lookupB : List (String × List Int) → String → List Int
  | [], _ => []
  | (r, l) :: t, s => if r = s then l else lookupB t s

/-- Append a dependent to a relation bucket, creating the bucket at the end
on first use (`defaultdict(list)` insertion order). -/
def bucketAppendM : List (String × List Int) → String → Int → List (String × List Int)
  | [], rel, i => [(rel, [i])]
  | (r, l) :: t, rel, i =>
    if r = rel then (r, l ++ [i]) :: t else (r, l) :: bucketAppendM t rel i

namespace DependencyGraph

/-- `self.nodes[a]` as a pure read (the claims never observe the
auto-creation a bare read performs, except in `get_by_address`). -/
def findNode (g : DependencyGraph) (a : Int) : Option Node :=
  lookupNode g.nodes a

/-- `self.nodes[a]` mutating form: get-or-create, then apply `f`. -/
def updateNode (g : DependencyGraph) (a : Int) (f : Node → Node) :
    DependencyGraph :=
  { g with nodes := updAssoc g.nodes a f }

/-- The graph `__init__` builds before any parsing: the `TOP` sentinel at
address 0, no root. -/
def init : DependencyGraph := { nodes := [(0, topNode)], root := none }

/-- `contains_address`: `node_address in self.nodes` (no auto-creation). -/
def contains_address (g : DependencyGraph) (a : Int) : Bool :=
  (g.findNode a).isSome

/-- `get_by_address`: `return self.nodes[node_address]` — a `defaultdict`
read, so an absent address materializes an empty placeholder.  Returns the
node together with the possibly-extended graph. -/
def get_by_address (g : DependencyGraph) (a : Int) :
    Node × DependencyGraph :=
  (((g.findNode a).getD emptyNode), g.updateNode a id)

/-- `dict.update(node)` on a node record: keys present in the argument
overwrite; node records passed to `add_node` carry all keys incl. `deps`. -/
def Node.update (old new : Node) : Node :=
  { address := new.address <|> old.address
    word := new.word <|> old.word
    lemma_ := new.lemma_ <|> old.lemma_
    ctag := new.ctag <|> old.ctag
    tag := new.tag <|> old.tag
    feats := new.feats <|> old.feats
    head := new.head <|> old.head
    rel := new.rel <|> old.rel
    deps := new.deps }

/-- `add_node`: install the record's fields at its `address` unless that
address already exists (`node['address']` is read first, so a record
without an address raises `KeyError`). -/
def add_node (g : DependencyGraph) (node : Node) :
    Except PyErr DependencyGraph :=
  match node.address with
  | none => .error (.keyError "address")
  | some a =>
    if g.contains_address a then .ok g
    else .ok (g.updateNode a (fun old => Node.update old node))

/-- Iterating `node['deps']` in Python: a dict yields its keys (relation
labels), a flat list yields its elements. -/
def depIter : Deps → List DepEntry
  | .dmap m => m.map (fun p => .lbl p.1)
  | .dlist l => l

/-- Python `dep in originals` where `originals` is a set of addresses: a
string key never equals an `int`. -/
def depEntryMem (e : DepEntry) (originals : List Int) : Bool :=
  match e with
  | .addr a => originals.contains a
  | .lbl _ => false

/-- `redirect_arcs`: for every node, rebuild `new_deps` by iterating
`node['deps']` and substituting `redirect` for members of `originals`, then
assign the flat list back to `node['deps']`. -/
def redirect_arcs (g : DependencyGraph) (originals : List Int)
    (redirect : Int) : DependencyGraph :=
  { g with
    nodes := g.nodes.map (fun p =>
      (p.1, { p.2 with
              deps := .dlist ((depIter p.2.deps).map (fun e =>
                if depEntryMem e originals then .addr redirect else e)) })) }

/-- `left_children`: count dependents with address `<` the node's own
`address` field, over all relation buckets labelled other than `"_"`.
`none` models the `KeyError` on a node without an `address` field and the
`TypeError` hit when `deps` has been flattened to a list holding anything
besides the label `"_"` (which the `rel != '_'` guard skips). -/
def left_children (g : DependencyGraph) (node_index : Int) : Option Nat :=
  let nd := (g.findNode node_index).getD emptyNode
  match nd.address with
  | none => none
  | some index =>
    match nd.deps with
    | .dmap m =>
      some (((m.filter (fun p => p.1 ≠ "_")).map
        (fun p => (p.2.filter (fun i => i < index)).length)).sum)
    | .dlist l => if l.all (fun e => e = .lbl "_") then some 0 else none

/-- `right_children`: mirror image of `left_children`. -/
def right_children (g : DependencyGraph) (node_index : Int) : Option Nat :=
  let nd := (g.findNode node_index).getD emptyNode
  match nd.address with
  | none => none
  | some index =>
    match nd.deps with
    | .dmap m =>
      some (((m.filter (fun p => p.1 ≠ "_")).map
        (fun p => (p.2.filter (fun i => index < i)).length)).sum)
    | .dlist l => if l.all (fun e => e = .lbl "_") then some 0 else none

end DependencyGraph

/-! ## The parser (`_parse`) -/

/-- The 7-tuple `word, lemma, ctag, tag, feats, head, rel` returned by a cell
extractor (`head` still a string at this point). -/
abbrev Cells7 := String × String × String × String × String × String × String

/-- A cell extractor; `none` models the `ValueError` raised by unpacking a
cell list of the wrong length. -/
abbrev Extractor := List String → Option Cells7

/-- `extract_3_cells`: `word, tag, head = cells`. -/
def extract_3_cells : Extractor
  | [word, tag, head] => some (word, word, tag, tag, "", head, "")
  | _ => none

/-- `extract_4_cells`: `word, tag, head, rel = cells`. -/
def extract_4_cells : Extractor
  | [word, tag, head, rel] => some (word, word, tag, tag, "", head, rel)
  | _ => none

/-- `extract_10_cells`: `_, word, lemma, ctag, tag, feats, head, rel, _, _ = cells`. -/
def extract_10_cells : Extractor
  | [_, word, lemma_, ctag, tag, feats, head, rel, _, _] =>
    some (word, lemma_, ctag, tag, feats, head, rel)
  | _ => none

/-- The `extractors` table keyed by cell count. -/
def extractors (n : Nat) : Option Extractor :=
  if n = 3 then some extract_3_cells
  else if n = 4 then some extract_4_cells
  else if n = 10 then some extract_10_cells
  else none

/-- The per-line data a successful extraction yields, with `head` already
through `int()` and the `zero_based` adjustment. -/
structure LineData where
  word : String
  lemma_ : String
  ctag : String
  tag : String
  feats : String
  head : Int
  rel : String
deriving DecidableEq, Repr

/-- Extraction of one line: split into cells, run the extractor, parse the
head as an integer, apply the `zero_based` increment. -/
def lineExtract (sep : Option String) (e : Extractor) (zb : Bool)
    (line : String) : Option LineData :=
  match e (pySplitCells sep line) with
  | none => none
  | some (w, l, c, t, f, hs, r) =>
    match pyInt hs with
    | none => none
    | some h => some ⟨w, l, c, t, f, if zb then h + 1 else h, r⟩

/-- Write the 8 scalar fields of line `idx` into a node
(`self.nodes[index].update({...})`; `deps` is untouched). -/
def setFields (idx : Int) (d : LineData) (nd : Node) : Node :=
  { nd with
    address := some idx, word := some d.word, lemma_ := some d.lemma_,
    ctag := some d.ctag, tag := some d.tag, feats := some d.feats,
    head := some d.head, rel := some d.rel }

/-- Append dependent `i` to the `rel` bucket of a node's multimap
(identity on a flattened `deps`; callers guard that case). -/
def appendDep (rel : String) (i : Int) (nd : Node) : Node :=
  match nd.deps with
  | .dmap m => { nd with deps := .dmap (bucketAppendM m rel i) }
  | .dlist _ => nd

namespace DependencyGraph

/-- `self.nodes[head]['deps'][rel].append(index)`: get-or-create the head
node, then append into its bucket; indexing a flattened (list-valued)
`deps` with a string key is a `TypeError`. -/
def depsAppendG (g : DependencyGraph) (a : Int) (rel : String) (i : Int) :
    Except PyErr DependencyGraph :=
  match ((g.findNode a).getD emptyNode).deps with
  | .dlist _ => .error .typeError
  | .dmap _ => .ok (g.updateNode a (appendDep rel i))

/-- Parser state: the graph under construction plus the current value of the
`cell_extractor` variable (set on the first line when no custom extractor
was supplied, then carried across iterations). -/
structure PState where
  g : DependencyGraph
  ext : Option Extractor

/-- One iteration of the `for index, line in enumerate(lines, start=1)`
loop. -/
def parseLine (zb : Bool) (sep : Option String) (st : PState) (idx : Int)
    (line : String) : Except PyErr PState := do
  let cells := pySplitCells sep line
  let e ← match st.ext with
    | some e => Except.ok e
    | none =>
      match extractors cells.length with
      | some e => Except.ok e
      | none => Except.error (.valueErrorFields (Int.ofNat cells.length))
  let (w, l, c, t, f, hs, r) ← match e cells with
    | some tup => Except.ok tup
    | none => Except.error .valueErrorUnpack
  let h ← match pyInt hs with
    | some h => Except.ok h
    | none => Except.error (.valueErrorInt hs)
  let head := if zb then h + 1 else h
  let g1 := st.g.updateNode idx
    (setFields idx ⟨w, l, c, t, f, head, r⟩)
  let g2 ← g1.depsAppendG head r idx
  Except.ok ⟨g2, some e⟩

/-- The line loop, with `idx` starting at 1. -/
def parseLines (zb : Bool) (sep : Option String) :
    PState → Int → List String → Except PyErr PState
  | st, _, [] => .ok st
  | st, idx, l :: ls =>
    match parseLine zb sep st idx l with
    | .error e => .error e
    | .ok st' => parseLines zb sep st' (idx + 1) ls

/-- `_parse` on an iterable of lines: rstrip, drop blanks, run the loop,
then validate that some node depends on `TOP` under relation `"ROOT"` and
set `root` to the first such dependent. -/
def parseInput (g0 : DependencyGraph) (input : List String)
    (cell_extractor : Option Extractor) (zb : Bool) (sep : Option String) :
    Except PyErr DependencyGraph :=
  match parseLines zb sep ⟨g0, cell_extractor⟩ 1
      ((input.map pyRstrip).filter (fun l => l ≠ "")) with
  | .error e => .error e
  | .ok st =>
    match ((st.g.findNode 0).getD emptyNode).deps with
    | .dlist _ => .error .typeError
    | .dmap m =>
      match lookupB m "ROOT" with
      | [] => .error .dependencyGraphError
      | r :: _ => .ok { st.g with root := some r }

/-- The constructor `DependencyGraph(tree_str, ...)`: start from the graph
holding only `TOP`, and parse unless `tree_str` is empty (falsy). -/
def ofString (tree_str : String) (cell_extractor : Option Extractor)
    (zb : Bool) (sep : Option String) : Except PyErr DependencyGraph :=
  if tree_str = "" then .ok init
  else init.parseInput (pySplitOn tree_str "\n") cell_extractor zb sep

/-- The block list of `load`: each block of the file's content becomes its
own graph; the first exception aborts the whole comprehension. -/
def loadBlocks (zb : Bool) (sep : Option String) :
    List String → Except PyErr (List DependencyGraph)
  | [] => .ok []
  | b :: t => do
    let g ← ofString b none zb sep
    let gs ← loadBlocks zb sep t
    .ok (g :: gs)

/-- `load`, with the file represented by its content: split on the
blank-line separator and parse each block with the same options. -/
def load (content : String) (zb : Bool) (sep : Option String) :
    Except PyErr (List DependencyGraph) :=
  loadBlocks zb sep (pySplitOn content "\n\n")

end DependencyGraph

/-! ## The serializer (`to_conll`) -/

/-- The three supported serialization styles (the `if/elif` chain). -/
inductive Style where
  | s3
  | s4
  | s10
deriving DecidableEq, Repr

/-- Style selection; `none` is the `else` branch raising the unsupported
format `ValueError`. -/
def styleOf (style : Int) : Option Style :=
  if style = 3 then some .s3
  else if style = 4 then some .s4
  else if style = 10 then some .s10
  else none

/-- Read a required string field of a node dict (`KeyError` when absent). -/
def reqS (v : Option String) (k : String) : Except PyErr String :=
  match v with
  | some s => .ok s
  | none => .error (.keyError k)

/-- Read a required integer field of a node dict (`KeyError` when absent). -/
def reqI (v : Option Int) (k : String) : Except PyErr Int :=
  match v with
  | some n => .ok n
  | none => .error (.keyError k)

/-- Render one `(address, node)` pair: the `node['tag'] != 'TOP'` filter
(`none` means the pair is skipped) followed by `template.format(i=i, **node)`,
reading the fields in the template's order. -/
def formatNode (st : Style) (i : Int) (nd : Node) :
    Except PyErr (Option String) := do
  let tag ← reqS nd.tag "tag"
  if tag = "TOP" then
    Except.ok none
  else
    match st with
    | .s3 => do
      let w ← reqS nd.word "word"
      let h ← reqI nd.head "head"
      Except.ok (some (w ++ "\t" ++ tag ++ "\t" ++ toString h ++ "\n"))
    | .s4 => do
      let w ← reqS nd.word "word"
      let h ← reqI nd.head "head"
      let r ← reqS nd.rel "rel"
      Except.ok (some (w ++ "\t" ++ tag ++ "\t" ++ toString h ++ "\t" ++ r ++ "\n"))
    | .s10 => do
      let w ← reqS nd.word "word"
      let l ← reqS nd.lemma_ "lemma"
      let c ← reqS nd.ctag "ctag"
      let f ← reqS nd.feats "feats"
      let h ← reqI nd.head "head"
      let r ← reqS nd.rel "rel"
      Except.ok (some (toString i ++ "\t" ++ w ++ "\t" ++ l ++ "\t" ++ c ++ "\t"
        ++ tag ++ "\t" ++ f ++ "\t" ++ toString h ++ "\t" ++ r ++ "\t_\t_\n"))

/-- Insert a pair into a key-sorted pair list (Python `sorted`; keys are
unique in every reachable graph, so stability is moot). -/
def insortPair (p : Int × Node) : List (Int × Node) → List (Int × Node)
  | [] => [p]
  | q :: t => if p.1 ≤ q.1 then p :: q :: t else q :: insortPair p t

/-- `sorted(self.nodes.items())`: sort the pair list by address. -/
def sortNodes : List (Int × Node) → List (Int × Node)
  | [] => []
  | p :: t => insortPair p (sortNodes t)

namespace DependencyGraph

/-- `''.join(...)` over the sorted, filtered, rendered nodes; the first
exception raised inside the generator aborts the join. -/
def to_conllAux (st : Style) : List (Int × Node) → Except PyErr String
  | [] => .ok ""
  | (i, nd) :: t => do
    let s? ← formatNode st i nd
    let rest ← to_conllAux st t
    .ok ((s?.getD "") ++ rest)

/-- `to_conll(style)`. -/
def to_conll (g : DependencyGraph) (style : Int) : Except PyErr String :=
  match styleOf style with
  | none => .error (.valueErrorFields style)
  | some st => to_conllAux st (sortNodes g.nodes)

end DependencyGraph

/-! ## Basic lemmas about the node map -/

/-- Discriminator for the multimap shape of `deps`. -/
def Deps.isDmap : Deps → Bool
  | .dmap _ => true
  | .dlist _ => false

/-- Every node of the graph still has multimap-shaped `deps` (true for every
graph no `redirect_arcs` has touched). -/
def GoodDeps (g : DependencyGraph) : Prop :=
  ∀ p ∈ g.nodes, Deps.isDmap p.2.deps = true

instance (g : DependencyGraph) : Decidable (GoodDeps g) :=
  List.decidableBAll _ g.nodes

/-- The node map has no duplicate addresses. -/
def keysNodup (l : List (Int × Node)) : Prop :=
  (l.map Prod.fst).Nodup

/-- The eight scalar entries of a node dict (everything but `deps`). -/
def scalarFields (nd : Node) :
    Option Int × Option String × Option String × Option String ×
    Option String × Option String × Option Int × Option String :=
  (nd.address, nd.word, nd.lemma_, nd.ctag, nd.tag, nd.feats, nd.head, nd.rel)

/-- The scalar entries line `idx` with data `d` installs. -/
def parsedScalar (idx : Int) (d : LineData) :
    Option Int × Option String × Option String × Option String ×
    Option String × Option String × Option Int × Option String :=
  (some idx, some d.word, some d.lemma_, some d.ctag, some d.tag,
   some d.feats, some d.head, some d.rel)

/-- The `rel`-bucket of the node at `a` (empty for an absent node, an empty
multimap, or a flattened `deps`). -/
def bucketOf (g : DependencyGraph) (a : Int) (r : String) : List Int :=
  match lookupNode g.nodes a with
  | none => []
  | some nd =>
    match nd.deps with
    | .dmap m => lookupB m r
    | .dlist _ => []

/-- The dependents the lines `start, start+1, …` described by `ds` append to
the `r`-bucket of the node at `a`, in order. -/
def contrib : Int → List LineData → Int → String → List Int
  | _, [], _, _ => []
  | i, d :: t, a, r =>
    (if d.head = a ∧ d.rel = r then [i] else []) ++ contrib (i + 1) t a r

theorem lookupNode_updAssoc_self (l : List (Int × Node)) (a : Int)
    (f : Node → Node) :
    lookupNode (updAssoc l a f) a = some (f ((lookupNode l a).getD emptyNode)) := by
  induction l with
  | nil => simp [updAssoc, lookupNode]
  | cons p t ih =>
    obtain ⟨b, nd⟩ := p
    by_cases hb : b = a
    · subst hb
      simp [updAssoc, lookupNode]
    · simp [updAssoc, lookupNode, hb, ih]

theorem lookupNode_updAssoc_ne (l : List (Int × Node)) (a b : Int)
    (f : Node → Node) (h : b ≠ a) :
    lookupNode (updAssoc l a f) b = lookupNode l b := by
  induction l with
  | nil => simp [updAssoc, lookupNode, Ne.symm h]
  | cons p t ih =>
    obtain ⟨c, nd⟩ := p
    by_cases hc : c = a
    · subst hc
      simp only [updAssoc, if_pos rfl, lookupNode]
      by_cases hcb : c = b
      · exact absurd hcb.symm h
      · simp [hcb]
    · simp only [updAssoc, if_neg hc, lookupNode]
      by_cases hcb : c = b
      · simp [hcb]
      · simp [hcb, ih]

theorem updAssoc_all (P : Node → Prop) (l : List (Int × Node)) (a : Int)
    (f : Node → Node) (hl : ∀ p ∈ l, P p.2) (he : P (f emptyNode))
    (hf : ∀ nd, P nd → P (f nd)) : ∀ p ∈ updAssoc l a f, P p.2 := by
  induction l with
  | nil =>
    intro p hp
    simp only [updAssoc, List.mem_singleton] at hp
    subst hp
    exact he
  | cons q t ih =>
    obtain ⟨b, nd⟩ := q
    intro p hp
    by_cases hb : b = a
    · subst hb
      rw [updAssoc, if_pos rfl] at hp
      rcases List.mem_cons.mp hp with h1 | h1
      · subst h1
        exact hf nd (hl (b, nd) (by simp))
      · exact hl _ (List.mem_cons_of_mem _ h1)
    · rw [updAssoc, if_neg hb] at hp
      rcases List.mem_cons.mp hp with h1 | h1
      · subst h1
        exact hl (b, nd) (by simp)
      · exact ih (fun q hq => hl q (List.mem_cons_of_mem _ hq)) p h1

theorem keys_updAssoc (l : List (Int × Node)) (a : Int) (f : Node → Node) :
    (updAssoc l a f).map Prod.fst =
      if (lookupNode l a).isSome then l.map Prod.fst
      else l.map Prod.fst ++ [a] := by
  induction l with
  | nil => simp [updAssoc, lookupNode]
  | cons p t ih =>
    obtain ⟨b, nd⟩ := p
    by_cases hb : b = a
    · subst hb
      simp [updAssoc, lookupNode]
    · simp only [updAssoc, if_neg hb, lookupNode, List.map_cons, ih]
      by_cases hs : (lookupNode t a).isSome
      · simp [hs, hb]
      · simp [hs, hb]

theorem lookupNode_isSome_iff_mem (l : List (Int × Node)) (a : Int) :
    (lookupNode l a).isSome ↔ a ∈ l.map Prod.fst := by
  induction l with
  | nil => simp [lookupNode]
  | cons p t ih =>
    obtain ⟨b, nd⟩ := p
    by_cases hb : b = a
    · subst hb
      simp [lookupNode]
    · simp [lookupNode, hb, ih, Ne.symm hb]

theorem keysNodup_updAssoc (l : List (Int × Node)) (a : Int)
    (f : Node → Node) (h : keysNodup l) : keysNodup (updAssoc l a f) := by
  unfold keysNodup at *
  rw [keys_updAssoc]
  by_cases hs : (lookupNode l a).isSome
  · simpa [hs]
  · have ha : a ∉ l.map Prod.fst := by
      rw [← lookupNode_isSome_iff_mem]
      simpa using hs
    simp only [Bool.not_eq_true] at hs
    simp only [hs, Bool.false_eq_true, if_false]
    rw [List.nodup_append]
    refine ⟨h, List.nodup_singleton a, ?_⟩
    intro x hx hxa
    rw [List.mem_singleton] at hxa
    subst hxa
    exact ha hx

theorem lookupNode_isSome_updAssoc (l : List (Int × Node)) (a b : Int)
    (f : Node → Node) :
    (lookupNode (updAssoc l a f) b).isSome ↔
      (lookupNode l b).isSome ∨ b = a := by
  by_cases hb : b = a
  · subst hb
    simp [lookupNode_updAssoc_self]
  · simp [lookupNode_updAssoc_ne l a b f hb, hb]

theorem lookupNode_mem (l : List (Int × Node)) (a : Int) (nd : Node)
    (h : lookupNode l a = some nd) : (a, nd) ∈ l := by
  induction l with
  | nil => simp [lookupNode] at h
  | cons p t ih =>
    obtain ⟨b, nd'⟩ := p
    by_cases hb : b = a
    · subst hb
      rw [lookupNode, if_pos rfl] at h
      rw [Option.some.injEq] at h
      subst h
      simp
    · rw [lookupNode, if_neg hb] at h
      exact List.mem_cons_of_mem _ (ih h)

theorem lookupB_bucketAppendM (m : List (String × List Int)) (r r' : String)
    (i : Int) :
    lookupB (bucketAppendM m r i) r' =
      lookupB m r' ++ (if r' = r then [i] else []) := by
  induction m with
  | nil =>
    by_cases h : r' = r
    · simp [bucketAppendM, lookupB, h]
    · simp [bucketAppendM, lookupB, h, Ne.symm h]
  | cons p t ih =>
    obtain ⟨s, l⟩ := p
    by_cases hs : s = r
    · subst hs
      by_cases h : s = r'
      · subst h
        simp [bucketAppendM, lookupB]
      · have h2 : ¬r' = s := fun hc => h hc.symm
        simp [bucketAppendM, lookupB, h, h2]
    · by_cases h : s = r'
      · subst h
        simp [bucketAppendM, lookupB, hs]
      · simp [bucketAppendM, lookupB, hs, h, ih]

/-! ## Effect of one parse step -/

theorem isDmap_iff (dp : Deps) : Deps.isDmap dp = true ↔ ∃ m, dp = .dmap m := by
  cases dp with
  | dmap m => simp [Deps.isDmap]
  | dlist l => simp [Deps.isDmap]

theorem gooddeps_getD (g : DependencyGraph) (a : Int) (h : GoodDeps g) :
    ∃ m, ((lookupNode g.nodes a).getD emptyNode).deps = Deps.dmap m := by
  cases hl : lookupNode g.nodes a with
  | none => exact ⟨[], rfl⟩
  | some nd =>
    have := h (a, nd) (lookupNode_mem _ _ _ hl)
    rw [isDmap_iff] at this
    obtain ⟨m, hm⟩ := this
    exact ⟨m, by simpa [hl] using hm⟩

theorem scalarFields_appendDep (r : String) (i : Int) (nd : Node) :
    scalarFields (appendDep r i nd) = scalarFields nd := by
  cases h : nd.deps <;> simp [appendDep, h, scalarFields]

theorem deps_setFields (idx : Int) (d : LineData) (nd : Node) :
    (setFields idx d nd).deps = nd.deps := rfl

theorem scalarFields_setFields (idx : Int) (d : LineData) (nd : Node) :
    scalarFields (setFields idx d nd) = parsedScalar idx d := rfl

theorem goodDeps_updateNode (g : DependencyGraph) (a : Int) (f : Node → Node)
    (hg : GoodDeps g) (hf : ∀ nd, Deps.isDmap nd.deps = true → Deps.isDmap (f nd).deps = true) :
    GoodDeps (g.updateNode a f) := by
  refine updAssoc_all (fun nd => Deps.isDmap nd.deps = true) g.nodes a f hg ?_ hf
  exact hf emptyNode rfl

theorem isDmap_setFields (idx : Int) (d : LineData) (nd : Node)
    (h : Deps.isDmap nd.deps = true) : Deps.isDmap (setFields idx d nd).deps = true := by
  rwa [deps_setFields]

theorem isDmap_appendDep (r : String) (i : Int) (nd : Node)
    (h : Deps.isDmap nd.deps = true) : Deps.isDmap (appendDep r i nd).deps = true := by
  rw [isDmap_iff] at h
  obtain ⟨m, hm⟩ := h
  simp [appendDep, hm, Deps.isDmap]

theorem bucketOf_updateNode_keepDeps (g : DependencyGraph) (x : Int)
    (f : Node → Node) (hf : ∀ nd, (f nd).deps = nd.deps) (a : Int) (r : String) :
    bucketOf (g.updateNode x f) a r = bucketOf g a r := by
  by_cases hax : a = x
  · subst hax
    unfold bucketOf DependencyGraph.updateNode
    simp only [lookupNode_updAssoc_self, hf]
    cases hl : lookupNode g.nodes a with
    | none => simp [emptyNode, lookupB]
    | some nd => simp
  · unfold bucketOf DependencyGraph.updateNode
    rw [lookupNode_updAssoc_ne _ _ _ _ hax]

theorem bucketOf_updateNode_appendDep (g : DependencyGraph) (x : Int)
    (rel : String) (i : Int) (m : List (String × List Int))
    (hm : ((lookupNode g.nodes x).getD emptyNode).deps = Deps.dmap m)
    (a : Int) (r' : String) :
    bucketOf (g.updateNode x (appendDep rel i)) a r' =
      bucketOf g a r' ++ (if a = x ∧ r' = rel then [i] else []) := by
  by_cases hax : a = x
  · subst hax
    unfold bucketOf DependencyGraph.updateNode
    rw [lookupNode_updAssoc_self]
    simp only [appendDep, hm]
    rw [lookupB_bucketAppendM]
    cases hl : lookupNode g.nodes a with
    | none =>
      rw [hl] at hm
      simp only [Option.getD_none] at hm
      have : m = [] := by
        have : Deps.dmap ([] : List (String × List Int)) = Deps.dmap m := hm
        cases this
        rfl
      subst this
      simp [lookupB]
    | some nd =>
      rw [hl] at hm
      simp only [Option.getD_some] at hm
      simp [hm]
  · unfold bucketOf DependencyGraph.updateNode
    rw [lookupNode_updAssoc_ne _ _ _ _ hax]
    simp [hax]

theorem parseLine_ok (zb : Bool) (sep : Option String) (e : Extractor)
    (g : DependencyGraph) (idx : Int) (line : String) (d : LineData)
    (hgood : GoodDeps g)
    (hex : lineExtract sep e zb line = some d) :
    DependencyGraph.parseLine zb sep ⟨g, some e⟩ idx line =
      .ok ⟨(g.updateNode idx (setFields idx d)).updateNode d.head
             (appendDep d.rel idx), some e⟩ := by
  unfold lineExtract at hex
  cases he : e (pySplitCells sep line) with
  | none => rw [he] at hex; exact absurd hex (by simp)
  | some tup =>
    obtain ⟨w, l, c, t, f, hs, r⟩ := tup
    rw [he] at hex
    dsimp only at hex
    cases hi : pyInt hs with
    | none => rw [hi] at hex; exact absurd hex (by simp)
    | some h =>
      rw [hi] at hex
      dsimp only at hex
      rw [Option.some.injEq] at hex
      subst hex
      have hgood1 : GoodDeps (g.updateNode idx
          (setFields idx ⟨w, l, c, t, f, if zb then h + 1 else h, r⟩)) :=
        goodDeps_updateNode _ _ _ hgood (isDmap_setFields _ _)
      obtain ⟨m, hm⟩ := gooddeps_getD _ (if zb then h + 1 else h) hgood1
      unfold DependencyGraph.parseLine
      simp only [he, hi, bind, Except.bind]
      unfold DependencyGraph.depsAppendG
      simp only [DependencyGraph.findNode] at hm ⊢
      rw [hm]

theorem parseLine_select (zb : Bool) (sep : Option String) (e : Extractor)
    (g : DependencyGraph) (idx : Int) (line : String)
    (hsel : extractors (pySplitCells sep line).length = some e) :
    DependencyGraph.parseLine zb sep ⟨g, none⟩ idx line = DependencyGraph.parseLine zb sep ⟨g, some e⟩ idx line := by
  simp only [DependencyGraph.parseLine, hsel, bind, Except.bind]

theorem parseLine_unsupported (zb : Bool) (sep : Option String)
    (g : DependencyGraph) (idx : Int) (line : String)
    (hsel : extractors (pySplitCells sep line).length = none) :
    DependencyGraph.parseLine zb sep ⟨g, none⟩ idx line =
      .error (.valueErrorFields (Int.ofNat (pySplitCells sep line).length)) := by
  simp only [DependencyGraph.parseLine, hsel, bind, Except.bind]

/-! ## Characterization of the whole line loop -/

/-- The graph after one fully successful parse step. -/
def stepGraph (g : DependencyGraph) (start : Int) (d : LineData) :
    DependencyGraph :=
  (g.updateNode start (setFields start d)).updateNode d.head
    (appendDep d.rel start)

theorem step_scalar_getD (g : DependencyGraph) (start : Int) (d : LineData)
    (a : Int) (ha : a ≠ start) :
    scalarFields ((lookupNode (stepGraph g start d).nodes a).getD emptyNode) =
      scalarFields ((lookupNode g.nodes a).getD emptyNode) := by
  unfold stepGraph DependencyGraph.updateNode
  by_cases hah : a = d.head
  · subst hah
    rw [lookupNode_updAssoc_self]
    simp only [Option.getD_some, scalarFields_appendDep]
    rw [lookupNode_updAssoc_ne _ _ _ _ ha]
  · rw [lookupNode_updAssoc_ne _ _ _ _ hah, lookupNode_updAssoc_ne _ _ _ _ ha]

theorem step_scalar_at (g : DependencyGraph) (start : Int) (d : LineData) :
    scalarFields ((lookupNode (stepGraph g start d).nodes start).getD emptyNode) =
      parsedScalar start d := by
  unfold stepGraph DependencyGraph.updateNode
  by_cases hsh : start = d.head
  · rw [← hsh, lookupNode_updAssoc_self]
    simp only [Option.getD_some, scalarFields_appendDep]
    rw [lookupNode_updAssoc_self]
    simp [scalarFields_setFields]
  · rw [lookupNode_updAssoc_ne _ _ _ _ hsh, lookupNode_updAssoc_self]
    simp [scalarFields_setFields]

theorem step_isSome (g : DependencyGraph) (start : Int) (d : LineData)
    (a : Int) :
    (lookupNode (stepGraph g start d).nodes a).isSome =
      ((lookupNode g.nodes a).isSome || decide (a = start)
        || decide (a = d.head)) := by
  unfold stepGraph DependencyGraph.updateNode
  rw [Bool.eq_iff_iff]
  simp only [Bool.or_eq_true, decide_eq_true_eq]
  rw [lookupNode_isSome_updAssoc]
  constructor
  · intro hh
    rcases hh with hh | hh
    · rw [lookupNode_isSome_updAssoc] at hh
      tauto
    · tauto
  · intro hh
    rw [lookupNode_isSome_updAssoc]
    tauto

theorem step_good (g : DependencyGraph) (start : Int) (d : LineData)
    (hgood : GoodDeps g) : GoodDeps (stepGraph g start d) := by
  unfold stepGraph
  exact goodDeps_updateNode _ _ _
    (goodDeps_updateNode _ _ _ hgood (isDmap_setFields _ _))
    (isDmap_appendDep _ _)

theorem step_nodup (g : DependencyGraph) (start : Int) (d : LineData)
    (h : keysNodup g.nodes) : keysNodup (stepGraph g start d).nodes := by
  unfold stepGraph DependencyGraph.updateNode
  exact keysNodup_updAssoc _ _ _ (keysNodup_updAssoc _ _ _ h)

theorem step_bucket (g : DependencyGraph) (start : Int) (d : LineData)
    (hgood : GoodDeps g) (a : Int) (r : String) :
    bucketOf (stepGraph g start d) a r =
      bucketOf g a r ++ (if d.head = a ∧ d.rel = r then [start] else []) := by
  have hgood1 : GoodDeps (g.updateNode start (setFields start d)) :=
    goodDeps_updateNode _ _ _ hgood (isDmap_setFields _ _)
  obtain ⟨m, hm⟩ := gooddeps_getD (g.updateNode start (setFields start d)) d.head hgood1
  unfold stepGraph
  rw [bucketOf_updateNode_appendDep _ _ _ _ m hm,
    bucketOf_updateNode_keepDeps _ _ _ (deps_setFields start d)]
  by_cases h1 : d.head = a
  · by_cases h2 : d.rel = r
    · simp [h1, h2]
    · have h3 : ¬r = d.rel := fun hc => h2 hc.symm
      simp [h1, h2, h3]
  · have h3 : ¬a = d.head := fun hc => h1 hc.symm
    simp [h1, h3]

theorem parseLines_char (zb : Bool) (sep : Option String) (e : Extractor)
    (ls : List String) (ds : List LineData)
    (hf : List.Forall₂ (fun l d => lineExtract sep e zb l = some d) ls ds) :
    ∀ (g : DependencyGraph) (start : Int), GoodDeps g →
    ∃ g', DependencyGraph.parseLines zb sep ⟨g, some e⟩ start ls = .ok ⟨g', some e⟩
      ∧ GoodDeps g'
      ∧ (∀ j : Nat, (hj : j < ds.length) → ∃ nd,
          lookupNode g'.nodes (start + (j : Int)) = some nd ∧
          scalarFields nd = parsedScalar (start + (j : Int)) (ds.get ⟨j, hj⟩))
      ∧ (∀ a : Int, (a < start ∨ start + (ds.length : Int) ≤ a) →
          ∀ nd', lookupNode g'.nodes a = some nd' →
          scalarFields nd' = scalarFields ((lookupNode g.nodes a).getD emptyNode))
      ∧ (∀ a : Int, (lookupNode g'.nodes a).isSome =
          ((lookupNode g.nodes a).isSome
            || decide (start ≤ a ∧ a < start + (ds.length : Int))
            || ds.any (fun d => d.head == a)))
      ∧ (∀ a r, bucketOf g' a r = bucketOf g a r ++ contrib start ds a r)
      ∧ (keysNodup g.nodes → keysNodup g'.nodes) := by
  induction hf with
  | nil =>
    intro g start hgood
    refine ⟨g, rfl, hgood, ?_, ?_, ?_, ?_, ?_⟩
    · intro j hj
      exact absurd hj (by simp)
    · intro a _ nd' hnd'
      simp [hnd']
    · intro a
      simp only [List.length_nil, List.any_nil, Int.natCast_zero, add_zero,
        Bool.or_false]
      have hr : ¬(start ≤ a ∧ a < start) := by omega
      simp [hr]
    · intro a r
      simp [contrib]
    · exact id
  | cons h1 htail ih =>
    rename_i l d lt dt
    intro g start hgood
    have hgood2 : GoodDeps (stepGraph g start d) := step_good g start d hgood
    obtain ⟨g', hrun, hg', hC, hD, hE, hF, hG⟩ := ih (stepGraph g start d) (start + 1) hgood2
    refine ⟨g', ?_, hg', ?_, ?_, ?_, ?_, ?_⟩
    · show DependencyGraph.parseLines zb sep ⟨g, some e⟩ start (l :: lt) = _
      rw [DependencyGraph.parseLines,
        parseLine_ok zb sep e g start l d hgood h1]
      exact hrun
    · intro j hj
      cases j with
      | zero =>
        have hstart : (lookupNode g'.nodes start).isSome = true := by
          rw [hE start]
          rw [step_isSome g start d start]
          simp
        rw [Option.isSome_iff_exists] at hstart
        obtain ⟨nd, hnd⟩ := hstart
        refine ⟨nd, by simpa using hnd, ?_⟩
        have hsc : scalarFields nd =
            scalarFields ((lookupNode (stepGraph g start d).nodes start).getD emptyNode) := by
          refine hD start (by left; omega) nd ?_
          simpa using hnd
        rw [hsc, step_scalar_at]
        simp [List.get]
      | succ j' =>
        have hj' : j' < dt.length := by
          simpa using hj
        have harith : start + ((j' + 1 : Nat) : Int) = (start + 1) + (j' : Int) := by
          push_cast
          ring
        obtain ⟨nd, hnd, hsc⟩ := hC j' hj'
        refine ⟨nd, ?_, ?_⟩
        · rw [harith]
          exact hnd
        · rw [harith, hsc]
          simp [List.get]
    · intro a ha nd' hnd'
      have ha2 : a < start + 1 ∨ (start + 1) + (dt.length : Int) ≤ a := by
        rcases ha with ha | ha
        · left; omega
        · right
          simp only [List.length_cons] at ha
          push_cast at ha ⊢
          omega
      rw [hD a ha2 nd' hnd']
      refine step_scalar_getD g start d a ?_
      rcases ha with ha | ha
      · omega
      · simp only [List.length_cons] at ha
        push_cast at ha
        omega
    · intro a
      rw [hE a, step_isSome g start d a]
      rw [Bool.eq_iff_iff]
      simp only [Bool.or_eq_true, decide_eq_true_eq, List.any_cons, beq_iff_eq,
        List.length_cons]
      by_cases hg1 : (lookupNode g.nodes a).isSome = true
      · simp [hg1]
      · by_cases ha2 : dt.any (fun d' => d'.head == a) = true
        · simp [hg1, ha2]
        · simp only [hg1, ha2]
          push_cast
          constructor
          · intro hh
            rcases hh with (((hh | hh) | hh) | hh) | hh
            · exact absurd hh id
            · omega
            · omega
            · omega
            · exact absurd hh id
          · intro hh
            rcases hh with (hh | hh) | hh | hh
            · exact absurd hh id
            · omega
            · omega
            · exact absurd hh id
    · intro a r
      rw [hF a r, step_bucket g start d hgood a r, contrib, List.append_assoc]
    · intro h
      exact hG (step_nodup g start d h)

/-! ## `_parse` from the freshly initialized graph -/

theorem filter_clean (ls : List String)
    (h : ∀ l ∈ ls, pyRstrip l = l ∧ l ≠ "") :
    (ls.map pyRstrip).filter (fun l => l ≠ "") = ls := by
  induction ls with
  | nil => rfl
  | cons l t ih =>
    obtain ⟨h1, h2⟩ := h l (by simp)
    simp only [List.map_cons, List.filter_cons, h1]
    rw [if_pos (by simpa using h2)]
    rw [ih (fun x hx => h x (List.mem_cons_of_mem _ hx))]

theorem contrib_nil_of_rel_ne (i : Int) (ds : List LineData) (a : Int)
    (r : String) (h : ∀ d ∈ ds, d.rel ≠ r) : contrib i ds a r = [] := by
  induction ds generalizing i with
  | nil => rfl
  | cons d t ih =>
    have hd : d.rel ≠ r := h d (by simp)
    simp only [contrib]
    rw [if_neg (by tauto), ih (i + 1) (fun x hx => h x (List.mem_cons_of_mem _ hx))]
    rfl

theorem lookupNode_init (a : Int) :
    lookupNode DependencyGraph.init.nodes a =
      if 0 = a then some topNode else none := rfl

theorem bucketOf_init (a : Int) (r : String) :
    bucketOf DependencyGraph.init a r = [] := by
  unfold bucketOf
  rw [lookupNode_init]
  by_cases h : 0 = a
  · simp [h, topNode, emptyNode, lookupB]
  · simp [h]

theorem goodDeps_init : GoodDeps DependencyGraph.init := by decide

theorem keysNodup_init : keysNodup DependencyGraph.init.nodes := by
  simp [keysNodup, DependencyGraph.init]

theorem parseInput_char (zb : Bool) (sep : Option String) (e : Extractor)
    (input ls : List String) (ds : List LineData)
    (hfil : (input.map pyRstrip).filter (fun l => l ≠ "") = ls)
    (hf : List.Forall₂ (fun l d => lineExtract sep e zb l = some d) ls ds) :
    (contrib 1 ds 0 "ROOT" = [] →
      DependencyGraph.parseInput DependencyGraph.init input (some e) zb sep =
        .error .dependencyGraphError) ∧
    (∀ r rest, contrib 1 ds 0 "ROOT" = r :: rest →
      ∃ G, DependencyGraph.parseInput DependencyGraph.init input (some e) zb sep = .ok G
        ∧ G.root = some r
        ∧ GoodDeps G
        ∧ keysNodup G.nodes
        ∧ (∀ j : Nat, (hj : j < ds.length) → ∃ nd,
            lookupNode G.nodes (1 + (j : Int)) = some nd ∧
            scalarFields nd = parsedScalar (1 + (j : Int)) (ds.get ⟨j, hj⟩))
        ∧ (∀ a : Int, (lookupNode G.nodes a).isSome =
            (decide (0 = a) || decide (1 ≤ a ∧ a < 1 + (ds.length : Int))
              || ds.any (fun d => d.head == a)))
        ∧ (∀ a r', bucketOf G a r' = contrib 1 ds a r')
        ∧ (∀ nd0, lookupNode G.nodes 0 = some nd0 →
            scalarFields nd0 = scalarFields topNode)) := by
  obtain ⟨g', hrun, hg', hC, hD, hE, hF, hG⟩ :=
    parseLines_char zb sep e ls ds hf DependencyGraph.init 1 goodDeps_init
  have hnodes0 : (lookupNode g'.nodes 0).isSome = true := by
    rw [hE 0]
    simp [lookupNode_init]
  rw [Option.isSome_iff_exists] at hnodes0
  obtain ⟨nd0, hnd0⟩ := hnodes0
  have hdmap := hg' (0, nd0) (lookupNode_mem _ _ _ hnd0)
  dsimp only at hdmap
  rw [isDmap_iff] at hdmap
  obtain ⟨m, hm⟩ := hdmap
  have hbucket : lookupB m "ROOT" = contrib 1 ds 0 "ROOT" := by
    have h5 := hF 0 "ROOT"
    rw [bucketOf_init] at h5
    unfold bucketOf at h5
    rw [hnd0] at h5
    dsimp only at h5
    rw [hm] at h5
    simpa using h5
  constructor
  · intro hempty
    unfold DependencyGraph.parseInput
    rw [hfil, hrun]
    have hroot : lookupB m "ROOT" = [] := by rw [hbucket, hempty]
    simp only [DependencyGraph.findNode, hnd0, Option.getD_some, hm, hroot]
  · intro r rest hcons
    refine ⟨{ g' with root := some r }, ?_, rfl, hg', hG keysNodup_init,
      hC, ?_, ?_, ?_⟩
    · unfold DependencyGraph.parseInput
      rw [hfil, hrun]
      have hroot : lookupB m "ROOT" = r :: rest := by rw [hbucket, hcons]
      simp only [DependencyGraph.findNode, hnd0, Option.getD_some, hm, hroot]
    · intro a
      rw [hE a]
      rw [lookupNode_init]
      by_cases h : 0 = a
      · simp [h]
      · simp [h]
    · intro a r'
      have := hF a r'
      rw [bucketOf_init] at this
      simpa using this
    · intro nd hnd
      have := hD 0 (by left; omega) nd hnd
      rw [this, lookupNode_init]
      simp

/-! ## Claims C9, C10 -/

/-- C9: `contains_address(a)` is true exactly when `a` is already a key of
the node mapping (it is a pure membership test, modelled as a function of
the graph alone — the Python `in` operator does not trigger `defaultdict`
creation), while `get_by_address(a)` on an absent address returns a fresh
empty placeholder and the graph extended with exactly that one key: the
placeholder is stored at `a`, `a` becomes a key, every other address maps
to the node it mapped to before, and `root` is untouched. -/
theorem claim_C9 (g : DependencyGraph) (a : Int) :
    (g.contains_address a = true ↔ (g.findNode a).isSome = true)
    ∧ (g.findNode a = none →
        (g.get_by_address a).1 = emptyNode
        ∧ (g.get_by_address a).2.findNode a = some emptyNode
        ∧ (g.get_by_address a).2.contains_address a = true
        ∧ (∀ b, b ≠ a → (g.get_by_address a).2.findNode b = g.findNode b)
        ∧ (g.get_by_address a).2.root = g.root) := by
  constructor
  · exact Iff.rfl
  · intro habs
    refine ⟨?_, ?_, ?_, ?_, rfl⟩
    · simp [DependencyGraph.get_by_address, habs]
    · show lookupNode (updAssoc g.nodes a id) a = some emptyNode
      rw [lookupNode_updAssoc_self]
      unfold DependencyGraph.findNode at habs
      simp [habs]
    · show (lookupNode (updAssoc g.nodes a id) a).isSome = true
      rw [lookupNode_updAssoc_self]
      rfl
    · intro b hb
      show lookupNode (updAssoc g.nodes a id) b = _
      rw [lookupNode_updAssoc_ne _ _ _ _ hb]
      rfl

/-- C9 witness: a concrete absent address on the freshly initialized
graph. -/
theorem claim_C9_witness :
    DependencyGraph.init.findNode 5 = none
    ∧ (DependencyGraph.init.contains_address 5 = true ↔
        (DependencyGraph.init.findNode 5).isSome = true)
    ∧ ((DependencyGraph.init.get_by_address 5).1 = emptyNode
        ∧ (DependencyGraph.init.get_by_address 5).2.findNode 5 = some emptyNode
        ∧ (DependencyGraph.init.get_by_address 5).2.contains_address 5 = true
        ∧ (∀ b, b ≠ 5 → (DependencyGraph.init.get_by_address 5).2.findNode b =
            DependencyGraph.init.findNode b)
        ∧ (DependencyGraph.init.get_by_address 5).2.root =
            DependencyGraph.init.root) :=
  ⟨by decide, (claim_C9 DependencyGraph.init 5).1,
    (claim_C9 DependencyGraph.init 5).2 (by decide)⟩

/-- C10: `add_node(n)` reads `n['address']`; if the graph already contains
that address (the TOP sentinel at 0 included), the graph is returned
completely unchanged (nodes and root); otherwise the record's fields are
installed at that address (merged into a fresh placeholder) and no other
address is affected. -/
theorem claim_C10 (g : DependencyGraph) (n : Node) (a : Int)
    (haddr : n.address = some a) :
    (g.contains_address a = true → g.add_node n = .ok g)
    ∧ (g.contains_address a = false →
        ∃ g2, g.add_node n = .ok g2
          ∧ g2.findNode a = some (DependencyGraph.Node.update emptyNode n)
          ∧ (∀ b, b ≠ a → g2.findNode b = g.findNode b)
          ∧ g2.root = g.root) := by
  constructor
  · intro hc
    unfold DependencyGraph.add_node
    rw [haddr]
    simp [hc]
  · intro hc
    refine ⟨g.updateNode a (fun old => DependencyGraph.Node.update old n),
      ?_, ?_, ?_, rfl⟩
    · unfold DependencyGraph.add_node
      rw [haddr]
      simp [hc]
    · show lookupNode (updAssoc g.nodes a _) a = _
      rw [lookupNode_updAssoc_self]
      unfold DependencyGraph.contains_address DependencyGraph.findNode at hc
      rw [Bool.eq_false_iff, Ne, Option.isSome_iff_exists] at hc
      cases hl : lookupNode g.nodes a with
      | none => simp
      | some nd => exact absurd ⟨nd, hl⟩ hc
    · intro b hb
      show lookupNode (updAssoc g.nodes a _) b = _
      rw [lookupNode_updAssoc_ne _ _ _ _ hb]
      rfl

/-- C10 witness: adding a record at the occupied TOP address 0 is a no-op;
adding it at the absent address 2 installs its fields. -/
theorem claim_C10_witness :
    ({ address := some 0, word := some "w" : Node }.address = some 0)
    ∧ (DependencyGraph.init.contains_address 0 = true →
        DependencyGraph.init.add_node { address := some 0, word := some "w" } =
          .ok DependencyGraph.init)
    ∧ (DependencyGraph.init.contains_address 2 = false →
        ∃ g2, DependencyGraph.init.add_node { address := some 2, word := some "w" } = .ok g2
          ∧ g2.findNode 2 = some (DependencyGraph.Node.update emptyNode
              { address := some 2, word := some "w" })
          ∧ (∀ b, b ≠ 2 → g2.findNode b = DependencyGraph.init.findNode b)
          ∧ g2.root = DependencyGraph.init.root) :=
  ⟨rfl,
   (claim_C10 DependencyGraph.init { address := some 0, word := some "w" } 0 rfl).1,
   (claim_C10 DependencyGraph.init { address := some 2, word := some "w" } 2 rfl).2⟩

/-! ## Claims C1, C6 -/

/-- Convenience for stating concrete instances: the graph a successful
constructor call returns (`init` when the constructor raised, which the
accompanying equations rule out). -/
def graphOfParse (s : String) : DependencyGraph :=
  ((DependencyGraph.ofString s none false none).toOption).getD
    DependencyGraph.init

/-- C1 (code bug): on the graph parsed from the 4-column line
`a<TAB>T<TAB>0<TAB>ROOT`, `redirect_arcs({1}, 5)` does **not** replace the
dependent address 1 by 5.  Because the loop iterates the `deps` dict — and
iterating a Python dict yields its keys — every node's `deps` becomes the
flat list of its relation labels: node 0 ends with `['ROOT']` (not the
`[5]` the claim and the method's own docstring describe), and the
dependent address 1 is gone entirely. -/
theorem claim_C1_code_bug :
    DependencyGraph.ofString "a\tT\t0\tROOT" none false none =
      .ok (graphOfParse "a\tT\t0\tROOT")
    ∧ (((graphOfParse "a\tT\t0\tROOT").redirect_arcs [1] 5).findNode 0).map
        Node.deps = some (.dlist [.lbl "ROOT"])
    ∧ (((graphOfParse "a\tT\t0\tROOT").redirect_arcs [1] 5).findNode 1).map
        Node.deps = some (.dlist [])
    ∧ Deps.dlist [DepEntry.lbl "ROOT"] ≠ Deps.dlist [DepEntry.addr 5] :=
  ⟨rfl, by decide, by decide, by decide⟩

/-- The total of the claim C6: number of dependents across all relation
buckets whose label is not the placeholder `"_"` (stated from the claim's
words, for comparison with what the code computes). -/
def totalNonUnderscore (m : List (String × List Int)) : Nat :=
  ((m.filter (fun p => p.1 ≠ "_")).map (fun p => p.2.length)).sum

/-- C6 counterexample: claim C6 as stated is false.  In the graph parsed
from `a<TAB>T<TAB>0<TAB>ROOT` / `b<TAB>T<TAB>2<TAB>B`, line 2 names itself
as its head, so node 2's bucket `"B"` holds the entry 2; that entry is
neither `< 2` nor `> 2`, so `left_children(2) + right_children(2) = 0`
while the total over non-`"_"` buckets is 1. -/
theorem claim_C6_counterexample :
    ¬ (∀ (g : DependencyGraph) (a : Int) (nd : Node)
        (m : List (String × List Int)) (L R : Nat),
        g.findNode a = some nd → nd.deps = Deps.dmap m →
        g.left_children a = some L → g.right_children a = some R →
        L + R = totalNonUnderscore m) := by
  intro h
  have h2 := h (graphOfParse "a\tT\t0\tROOT\nb\tT\t2\tB") 2
    { address := some 2, word := some "b", lemma_ := some "b",
      ctag := some "T", tag := some "T", feats := some "",
      head := some 2, rel := some "B", deps := .dmap [("B", [2])] }
    [("B", [2])] 0 0 (by decide) rfl (by decide) (by decide)
  exact absurd h2 (by decide)

theorem count_lt_add_count_gt (l : List Int) (idx : Int) :
    (l.filter (fun i => i < idx)).length
      + (l.filter (fun i => idx < i)).length
      = (l.filter (fun i => i ≠ idx)).length := by
  induction l with
  | nil => rfl
  | cons i t ih =>
    rcases lt_trichotomy i idx with hlt | heq | hgt
    · have h1 : ¬(idx < i) := by omega
      have h2 : i ≠ idx := by omega
      simp only [List.filter_cons, decide_eq_true_eq]
      rw [if_pos (by simpa using hlt), if_neg (by simpa using h1),
        if_pos (by simpa using h2)]
      simp only [List.length_cons]
      omega
    · subst heq
      have h1 : ¬(i < i) := by omega
      simp only [List.filter_cons]
      rw [if_neg (by simp), if_neg (by simp), if_neg (by simp)]
      exact ih
    · have h1 : ¬(i < idx) := by omega
      have h2 : i ≠ idx := by omega
      simp only [List.filter_cons]
      rw [if_neg (by simpa using h1), if_pos (by simpa using hgt),
        if_pos (by simpa using h2)]
      simp only [List.length_cons]
      omega

theorem sum_lt_add_sum_gt (m : List (String × List Int)) (idx : Int) :
    ((m.filter (fun p => p.1 ≠ "_")).map
        (fun p => (p.2.filter (fun i => i < idx)).length)).sum
      + ((m.filter (fun p => p.1 ≠ "_")).map
        (fun p => (p.2.filter (fun i => idx < i)).length)).sum
      = ((m.filter (fun p => p.1 ≠ "_")).map
        (fun p => (p.2.filter (fun i => i ≠ idx)).length)).sum := by
  induction m with
  | nil => rfl
  | cons p t ih =>
    by_cases hp : p.1 = "_"
    · rw [List.filter_cons_of_neg (by simp [hp])]
      exact ih
    · rw [List.filter_cons_of_pos (by simp [hp])]
      simp only [List.map_cons, List.sum_cons]
      have h4 := count_lt_add_count_gt p.2 idx
      omega

/-- C6 amended: `left_children(a) + right_children(a)` equals the number
of dependents across all non-`"_"` relation buckets **whose address
differs from the node's own `address`** — entries equal to the node's own
address (self-loops) are counted on neither side, which is the only way
the original claim fails. -/
theorem claim_C6_amended (g : DependencyGraph) (a idx : Int) (nd : Node)
    (m : List (String × List Int))
    (h1 : g.findNode a = some nd) (h2 : nd.address = some idx)
    (h3 : nd.deps = Deps.dmap m) :
    ∃ L R, g.left_children a = some L ∧ g.right_children a = some R
      ∧ L + R = ((m.filter (fun p => p.1 ≠ "_")).map
          (fun p => (p.2.filter (fun i => i ≠ idx)).length)).sum := by
  refine ⟨((m.filter (fun p => p.1 ≠ "_")).map
      (fun p => (p.2.filter (fun i => i < idx)).length)).sum,
    ((m.filter (fun p => p.1 ≠ "_")).map
      (fun p => (p.2.filter (fun i => idx < i)).length)).sum,
    ?_, ?_, sum_lt_add_sum_gt m idx⟩
  · unfold DependencyGraph.left_children
    rw [h1]
    dsimp only [Option.getD_some]
    rw [h2]
    dsimp only
    rw [h3]
  · unfold DependencyGraph.right_children
    rw [h1]
    dsimp only [Option.getD_some]
    rw [h2]
    dsimp only
    rw [h3]

/-- C6 witness: node 0 of a parsed graph has the single dependent 1 in its
`ROOT` bucket; `left_children(0) + right_children(0) = 0 + 1 = 1` matches
the amended total. -/
theorem claim_C6_witness :
    (graphOfParse "a\tT\t0\tROOT").findNode 0 =
      some { topNode with deps := .dmap [("ROOT", [1])] }
    ∧ ({ topNode with deps := .dmap [("ROOT", [1])] } : Node).address = some 0
    ∧ (∃ L R, (graphOfParse "a\tT\t0\tROOT").left_children 0 = some L
        ∧ (graphOfParse "a\tT\t0\tROOT").right_children 0 = some R
        ∧ L + R = (([("ROOT", [1])].filter (fun p => p.1 ≠ "_")).map
            (fun p => (p.2.filter (fun i => i ≠ (0 : Int))).length)).sum) :=
  ⟨by decide, by decide,
   claim_C6_amended (graphOfParse "a\tT\t0\tROOT") 0 0
     { topNode with deps := .dmap [("ROOT", [1])] } [("ROOT", [1])]
     (by decide) rfl rfl⟩

/-! ## Claim C5 -/

/-- C5: when no custom extractor is supplied, the cell count of the first
non-blank line alone selects the built-in extractor — the whole parse then
behaves exactly as if that extractor had been passed in as the custom one
(so it is reused for every later line regardless of that line's own cell
count) — and if that count is none of 3, 4 or 10 the parse fails with the
unsupported-format `ValueError` carrying the count. -/
theorem claim_C5 (g0 : DependencyGraph) (zb : Bool) (sep : Option String)
    (input : List String) (l : String) (rest : List String)
    (hfil : (input.map pyRstrip).filter (fun x => x ≠ "") = l :: rest) :
    (∀ e, extractors (pySplitCells sep l).length = some e →
      DependencyGraph.parseInput g0 input none zb sep =
        DependencyGraph.parseInput g0 input (some e) zb sep)
    ∧ (extractors (pySplitCells sep l).length = none →
      DependencyGraph.parseInput g0 input none zb sep =
        .error (.valueErrorFields (Int.ofNat (pySplitCells sep l).length))) := by
  constructor
  · intro e hsel
    unfold DependencyGraph.parseInput
    rw [hfil]
    rw [DependencyGraph.parseLines, DependencyGraph.parseLines,
      parseLine_select zb sep e g0 1 l hsel]
  · intro hsel
    unfold DependencyGraph.parseInput
    rw [hfil]
    rw [DependencyGraph.parseLines, parseLine_unsupported zb sep g0 1 l hsel]

/-- C5 witness: a 4-column first line selects `extract_4_cells` for the
whole parse; a 5-column first line aborts with the unsupported-format
error carrying 5. -/
theorem claim_C5_witness :
    ((["a\tT\t0\tROOT"].map pyRstrip).filter (fun x => x ≠ "") = ["a\tT\t0\tROOT"])
    ∧ DependencyGraph.parseInput DependencyGraph.init ["a\tT\t0\tROOT"] none false none =
        DependencyGraph.parseInput DependencyGraph.init ["a\tT\t0\tROOT"]
          (some extract_4_cells) false none
    ∧ DependencyGraph.parseInput DependencyGraph.init ["a b c d e"] none false none =
        .error (.valueErrorFields 5) :=
  ⟨by decide,
   (claim_C5 DependencyGraph.init false none ["a\tT\t0\tROOT"] "a\tT\t0\tROOT" []
     (by decide)).1 extract_4_cells rfl,
   (claim_C5 DependencyGraph.init false none ["a b c d e"] "a b c d e" []
     (by decide)).2 rfl⟩

/-! ## Claim C3 -/

/-- C3: (a) once the line loop has processed all non-blank lines, the final
root check decides construction: an empty `deps["ROOT"]` bucket on the TOP
node raises the missing-root `DependencyGraphError`, a non-empty one makes
construction succeed with `root` set to the bucket's first address; and
(b) a record none of whose lines carries the relation `"ROOT"` (as with
the 3-column extractor, which hard-codes an empty `rel`) always fails with
exactly that error. -/
theorem claim_C3 (zb : Bool) (sep : Option String) (input : List String) :
    (∀ (ce : Option Extractor) (st : DependencyGraph.PState)
        (m : List (String × List Int)),
      DependencyGraph.parseLines zb sep ⟨DependencyGraph.init, ce⟩ 1
          ((input.map pyRstrip).filter (fun l => l ≠ "")) = .ok st →
      ((lookupNode st.g.nodes 0).getD emptyNode).deps = Deps.dmap m →
      (lookupB m "ROOT" = [] →
        DependencyGraph.parseInput DependencyGraph.init input ce zb sep =
          .error .dependencyGraphError)
      ∧ (∀ r t, lookupB m "ROOT" = r :: t →
        DependencyGraph.parseInput DependencyGraph.init input ce zb sep =
          .ok { st.g with root := some r }))
    ∧ (∀ (e : Extractor) (ls : List String) (ds : List LineData),
      (input.map pyRstrip).filter (fun l => l ≠ "") = ls →
      List.Forall₂ (fun l d => lineExtract sep e zb l = some d) ls ds →
      (∀ d ∈ ds, d.rel ≠ "ROOT") →
      DependencyGraph.parseInput DependencyGraph.init input (some e) zb sep =
        .error .dependencyGraphError) := by
  constructor
  · intro ce st m hrun hm
    constructor
    · intro hroot
      unfold DependencyGraph.parseInput
      rw [hrun]
      dsimp only [DependencyGraph.findNode]
      rw [hm]
      dsimp only
      rw [hroot]
    · intro r t hroot
      unfold DependencyGraph.parseInput
      rw [hrun]
      dsimp only [DependencyGraph.findNode]
      rw [hm]
      dsimp only
      rw [hroot]
  · intro e ls ds hfil hf hrel
    exact (parseInput_char zb sep e input ls ds hfil hf).1
      (contrib_nil_of_rel_ne 1 ds 0 "ROOT" hrel)

/-- C3 witness: the spec's own example — the 3-column record
`John NNP 2 / loves VBZ 0 / Mary NNP 2` has empty `rel` on every line and
fails with the missing-root error; and on the 4-column record
`a T 0 ROOT` the post-loop bucket `["ROOT"] = [1]` makes construction
succeed with root 1. -/
theorem claim_C3_witness :
    DependencyGraph.parseInput DependencyGraph.init
        ["John\tNNP\t2", "loves\tVBZ\t0", "Mary\tNNP\t2"]
        (some extract_3_cells) false none = .error .dependencyGraphError
    ∧ DependencyGraph.parseInput DependencyGraph.init ["a\tT\t0\tROOT"]
        (some extract_4_cells) false none =
      .ok { (graphOfParse "a\tT\t0\tROOT") with root := some 1 } := by
  constructor
  · exact (claim_C3 false none _).2 extract_3_cells
      ["John\tNNP\t2", "loves\tVBZ\t0", "Mary\tNNP\t2"]
      [⟨"John", "John", "NNP", "NNP", "", 2, ""⟩,
       ⟨"loves", "loves", "VBZ", "VBZ", "", 0, ""⟩,
       ⟨"Mary", "Mary", "NNP", "NNP", "", 2, ""⟩]
      (by decide) (.cons rfl (.cons rfl (.cons rfl .nil))) (by decide)
  · exact ((claim_C3 false none ["a\tT\t0\tROOT"]).1 (some extract_4_cells)
      ⟨{ graphOfParse "a\tT\t0\tROOT" with root := none }, some extract_4_cells⟩
      [("ROOT", [1])] rfl (by decide)).2 1 [] (by decide)

/-! ## Claim C7 -/

theorem parseLine_ok_inv (zb : Bool) (sep : Option String) (e : Extractor)
    (g : DependencyGraph) (idx : Int) (line : String)
    (st' : DependencyGraph.PState)
    (hok : DependencyGraph.parseLine zb sep ⟨g, some e⟩ idx line = .ok st') :
    ∃ d, lineExtract sep e zb line = some d := by
  cases he : e (pySplitCells sep line) with
  | none =>
    simp only [DependencyGraph.parseLine, he, bind, Except.bind] at hok
    exact absurd hok (by simp)
  | some tup =>
    obtain ⟨w, l, c, t, f, hs, r⟩ := tup
    cases hi : pyInt hs with
    | none =>
      simp only [DependencyGraph.parseLine, he, hi, bind, Except.bind] at hok
      exact absurd hok (by simp)
    | some h =>
      exact ⟨⟨w, l, c, t, f, if zb then h + 1 else h, r⟩,
        by simp [lineExtract, he, hi]⟩

theorem parseLines_ok_inv (zb : Bool) (sep : Option String) (e : Extractor) :
    ∀ (ls : List String) (g : DependencyGraph) (start : Int)
      (st : DependencyGraph.PState), GoodDeps g →
    DependencyGraph.parseLines zb sep ⟨g, some e⟩ start ls = .ok st →
    ∃ ds, List.Forall₂ (fun l d => lineExtract sep e zb l = some d) ls ds := by
  intro ls
  induction ls with
  | nil =>
    intro g start st _ _
    exact ⟨[], .nil⟩
  | cons l t ih =>
    intro g start st hgood hok
    rw [DependencyGraph.parseLines] at hok
    cases hstep : DependencyGraph.parseLine zb sep ⟨g, some e⟩ start l with
    | error err =>
      rw [hstep] at hok
      exact absurd hok (by simp)
    | ok st1 =>
      rw [hstep] at hok
      obtain ⟨d, hd⟩ := parseLine_ok_inv zb sep e g start l st1 hstep
      rw [parseLine_ok zb sep e g start l d hgood hd] at hstep
      injection hstep with hst1
      subst hst1
      obtain ⟨ds, hds⟩ := ih (stepGraph g start d) (start + 1) st
        (step_good g start d hgood) hok
      exact ⟨d :: ds, .cons hd hds⟩

/-- The head field stored for the line at position `pre.length` (0-based)
of a record of clean lines, when the whole parse succeeds: it is the head
computed by `lineExtract`. -/
theorem parse_node_head (zb : Bool) (sep : Option String) (e : Extractor)
    (pre post : List String) (l : String) (d : LineData)
    (hclean : ∀ x ∈ pre ++ l :: post, pyRstrip x = x ∧ x ≠ "")
    (hdl : lineExtract sep e zb l = some d) (G : DependencyGraph)
    (hp : DependencyGraph.parseInput DependencyGraph.init (pre ++ l :: post)
        (some e) zb sep = .ok G) :
    ∃ nd, G.findNode ((pre.length : Int) + 1) = some nd
      ∧ nd.head = some d.head := by
  have hfil : ((pre ++ l :: post).map pyRstrip).filter (fun x => x ≠ "") =
      pre ++ l :: post := filter_clean _ hclean
  have hp0 := hp
  unfold DependencyGraph.parseInput at hp0
  rw [hfil] at hp0
  cases hrun : DependencyGraph.parseLines zb sep
      ⟨DependencyGraph.init, some e⟩ 1 (pre ++ l :: post) with
  | error err =>
    rw [hrun] at hp0
    exact absurd hp0 (by simp)
  | ok st =>
    obtain ⟨ds, hf⟩ := parseLines_ok_inv zb sep e (pre ++ l :: post)
      DependencyGraph.init 1 st goodDeps_init hrun
    have hchar := parseInput_char zb sep e (pre ++ l :: post)
      (pre ++ l :: post) ds hfil hf
    cases hc0 : contrib 1 ds 0 "ROOT" with
    | nil =>
      rw [hchar.1 hc0] at hp
      exact absurd hp (by simp)
    | cons r rest =>
      obtain ⟨G0, hok0, _h1, _h2, _h3, hC, _h4, _h5, _h6⟩ :=
        hchar.2 r rest hc0
      rw [hok0] at hp
      injection hp with hGG
      subst hGG
      have hlen := hf.length_eq
      have hjlt : pre.length < ds.length := by
        rw [← hlen]
        simp only [List.length_append, List.length_cons]
        omega
      obtain ⟨nd, hnd, hsc⟩ := hC pre.length hjlt
      have hget := (List.forall₂_iff_get.mp hf).2 pre.length
        (by rw [hlen]; exact hjlt) hjlt
      have hat : (pre ++ l :: post).get
          ⟨pre.length, by rw [hlen]; exact hjlt⟩ = l := by
        rw [List.get_eq_getElem, List.getElem_append_right (le_refl pre.length)]
        simp
      rw [hat, hdl] at hget
      have hds : ds.get ⟨pre.length, hjlt⟩ = d := by
        injection hget with h
        exact h.symm
      rw [hds] at hsc
      refine ⟨nd, ?_, ?_⟩
      · unfold DependencyGraph.findNode
        have harith : (pre.length : Int) + 1 = 1 + (pre.length : Int) := by ring
        rw [harith]
        exact hnd
      · simp only [scalarFields, parsedScalar, Prod.mk.injEq] at hsc
        exact hsc.2.2.2.2.2.2.1

/-- C7: two otherwise-identical records whose distinguished line carries
raw head `h` (parsed with `zero_based = true`) and raw head `h + 1`
(parsed with `zero_based = false`) store the same internal head address,
`h + 1`, for that line's node. -/
theorem claim_C7 (sep : Option String) (e : Extractor)
    (pre post : List String) (l l' : String)
    (w lm c t f hs hs' r : String) (h : Int)
    (he : e (pySplitCells sep l) = some (w, lm, c, t, f, hs, r))
    (he' : e (pySplitCells sep l') = some (w, lm, c, t, f, hs', r))
    (hh : pyInt hs = some h) (hh' : pyInt hs' = some (h + 1))
    (hclean : ∀ x ∈ pre ++ l :: post, pyRstrip x = x ∧ x ≠ "")
    (hclean' : ∀ x ∈ pre ++ l' :: post, pyRstrip x = x ∧ x ≠ "")
    (G G' : DependencyGraph)
    (hp : DependencyGraph.parseInput DependencyGraph.init (pre ++ l :: post)
        (some e) true sep = .ok G)
    (hp' : DependencyGraph.parseInput DependencyGraph.init (pre ++ l' :: post)
        (some e) false sep = .ok G') :
    ∃ nd nd', G.findNode ((pre.length : Int) + 1) = some nd
      ∧ G'.findNode ((pre.length : Int) + 1) = some nd'
      ∧ nd.head = some (h + 1) ∧ nd'.head = some (h + 1)
      ∧ nd.head = nd'.head := by
  obtain ⟨nd, hnd, hh1⟩ := parse_node_head true sep e pre post l
    ⟨w, lm, c, t, f, h + 1, r⟩ hclean (by simp [lineExtract, he, hh]) G hp
  obtain ⟨nd', hnd', hh2⟩ := parse_node_head false sep e pre post l'
    ⟨w, lm, c, t, f, h + 1, r⟩ hclean' (by simp [lineExtract, he', hh']) G' hp'
  exact ⟨nd, nd', hnd, hnd', hh1, hh2, by rw [hh1, hh2]⟩

/-- Convenience accessor mirroring `graphOfParse` for explicit `_parse`
options (the graph a successful `_parse` call produced). -/
def parseOk (input : List String) (ce : Option Extractor) (zb : Bool)
    (sep : Option String) : DependencyGraph :=
  ((DependencyGraph.parseInput DependencyGraph.init input ce zb sep).toOption).getD
    DependencyGraph.init

/-- C7 witness: the records `a T 0 A / b T -1 ROOT` (zero-based, zpar
style) and `a T 0 A / b T 0 ROOT` (one-based) both store internal head 0
for node 2. -/
theorem claim_C7_witness :
    DependencyGraph.parseInput DependencyGraph.init
        ["a\tT\t0\tA", "b\tT\t-1\tROOT"] (some extract_4_cells) true none =
      .ok (parseOk ["a\tT\t0\tA", "b\tT\t-1\tROOT"] (some extract_4_cells) true none)
    ∧ DependencyGraph.parseInput DependencyGraph.init
        ["a\tT\t0\tA", "b\tT\t0\tROOT"] (some extract_4_cells) false none =
      .ok (parseOk ["a\tT\t0\tA", "b\tT\t0\tROOT"] (some extract_4_cells) false none)
    ∧ ∃ nd nd',
        (parseOk ["a\tT\t0\tA", "b\tT\t-1\tROOT"] (some extract_4_cells) true
            none).findNode (((["a\tT\t0\tA"] : List String).length : Int) + 1) =
          some nd
      ∧ (parseOk ["a\tT\t0\tA", "b\tT\t0\tROOT"] (some extract_4_cells) false
            none).findNode (((["a\tT\t0\tA"] : List String).length : Int) + 1) =
          some nd'
      ∧ nd.head = some (-1 + 1) ∧ nd'.head = some (-1 + 1)
      ∧ nd.head = nd'.head :=
  ⟨rfl, rfl,
   claim_C7 none extract_4_cells ["a\tT\t0\tA"] [] "b\tT\t-1\tROOT"
     "b\tT\t0\tROOT" "b" "b" "T" "T" "" "-1" "0" "ROOT" (-1)
     rfl rfl (by decide) (by decide) (by decide) (by decide) _ _ rfl rfl⟩

/-! ## Claim C4 -/

/-- The root invariant of §3: the TOP node's `"ROOT"` bucket is non-empty
and `root` is the node at its first address. -/
def rootInvariant (g : DependencyGraph) : Prop :=
  ∃ nd0 m r t, g.findNode 0 = some nd0 ∧ nd0.deps = Deps.dmap m
    ∧ lookupB m "ROOT" = r :: t ∧ g.root = some r

theorem parseInput_root_inv (g0 : DependencyGraph) (input : List String)
    (ce : Option Extractor) (zb : Bool) (sep : Option String)
    (G : DependencyGraph)
    (h : DependencyGraph.parseInput g0 input ce zb sep = .ok G) :
    rootInvariant G := by
  unfold DependencyGraph.parseInput at h
  cases hrun : DependencyGraph.parseLines zb sep ⟨g0, ce⟩ 1
      ((input.map pyRstrip).filter (fun l => l ≠ "")) with
  | error err =>
    rw [hrun] at h
    exact absurd h (by simp)
  | ok st =>
    rw [hrun] at h
    dsimp only [DependencyGraph.findNode] at h
    cases hl : lookupNode st.g.nodes 0 with
    | none =>
      rw [hl] at h
      dsimp only [Option.getD_none, emptyNode, lookupB] at h
      exact absurd h (by simp)
    | some nd0 =>
      rw [hl] at h
      dsimp only [Option.getD_some] at h
      cases hd : nd0.deps with
      | dlist l =>
        rw [hd] at h
        exact absurd h (by simp)
      | dmap m =>
        rw [hd] at h
        dsimp only at h
        cases hb : lookupB m "ROOT" with
        | nil =>
          rw [hb] at h
          exact absurd h (by simp)
        | cons r t =>
          rw [hb] at h
          dsimp only at h
          injection h with hG
          subst hG
          exact ⟨nd0, m, r, t, hl, hd, hb, rfl⟩

theorem ofString_root_inv (b : String) (zb : Bool) (sep : Option String)
    (G : DependencyGraph) (hb : b ≠ "")
    (h : DependencyGraph.ofString b none zb sep = .ok G) :
    rootInvariant G := by
  unfold DependencyGraph.ofString at h
  rw [if_neg hb] at h
  exact parseInput_root_inv _ _ _ _ _ _ h

theorem loadBlocks_ok (zb : Bool) (sep : Option String) :
    ∀ (bs : List String) (gs : List DependencyGraph),
    DependencyGraph.loadBlocks zb sep bs = .ok gs →
    gs.length = bs.length
    ∧ ∀ j (hj : j < bs.length) (hj2 : j < gs.length),
        DependencyGraph.ofString (bs.get ⟨j, hj⟩) none zb sep =
          .ok (gs.get ⟨j, hj2⟩) := by
  intro bs
  induction bs with
  | nil =>
    intro gs h
    simp only [DependencyGraph.loadBlocks] at h
    injection h with h
    subst h
    exact ⟨rfl, fun j hj _ => absurd hj (by simp)⟩
  | cons b t ih =>
    intro gs h
    simp only [DependencyGraph.loadBlocks, bind, Except.bind] at h
    cases hb : DependencyGraph.ofString b none zb sep with
    | error e =>
      rw [hb] at h
      exact absurd h (by simp)
    | ok g =>
      rw [hb] at h
      cases ht : DependencyGraph.loadBlocks zb sep t with
      | error e =>
        rw [ht] at h
        exact absurd h (by simp)
      | ok gs' =>
        rw [ht] at h
        dsimp only at h
        injection h with h
        subst h
        obtain ⟨hlen, hall⟩ := ih gs' ht
        refine ⟨by simp [hlen], ?_⟩
        intro j hj hj2
        cases j with
        | zero => simpa using hb
        | succ j' =>
          have hj' : j' < t.length := by simpa using hj
          have hj2' : j' < gs'.length := by simpa using hj2
          simpa using hall j' hj' hj2'

theorem loadBlocks_err (zb : Bool) (sep : Option String) :
    ∀ (bs : List String) (j : Nat) (hj : j < bs.length) (e : PyErr),
    (∀ i (hi : i < j), ∃ gi,
      DependencyGraph.ofString (bs.get ⟨i, by omega⟩) none zb sep = .ok gi) →
    DependencyGraph.ofString (bs.get ⟨j, hj⟩) none zb sep = .error e →
    DependencyGraph.loadBlocks zb sep bs = .error e := by
  intro bs
  induction bs with
  | nil =>
    intro j hj
    exact absurd hj (by simp)
  | cons b t ih =>
    intro j hj e hpre herr
    cases j with
    | zero =>
      simp only [List.get] at herr
      simp only [DependencyGraph.loadBlocks, bind, Except.bind, herr]
    | succ j' =>
      obtain ⟨g0, hg0⟩ := hpre 0 (by omega)
      simp only [List.get] at hg0 herr
      have hj' : j' < t.length := by simpa using hj
      have hrec := ih j' hj' e
        (fun i hi => by
          obtain ⟨gi, hgi⟩ := hpre (i + 1) (by omega)
          exact ⟨gi, by simpa using hgi⟩)
        herr
      simp only [DependencyGraph.loadBlocks, bind, Except.bind, hg0, hrec]

/-- C4: splitting the file content on the blank-line separator into K
non-empty blocks, `load` parses each block independently with the same
options: on success it returns exactly K graphs in block order, each the
parse of its own block and each satisfying the root invariant; and if some
block fails while all earlier blocks parse, the whole load fails with that
block's error. -/
theorem claim_C4 (content : String) (blocks : List String) (zb : Bool)
    (sep : Option String)
    (hsplit : pySplitOn content "\n\n" = blocks)
    (hne : ∀ b ∈ blocks, b ≠ "") :
    (∀ gs, DependencyGraph.load content zb sep = .ok gs →
      gs.length = blocks.length
      ∧ ∀ j (hj : j < blocks.length) (hj2 : j < gs.length),
          DependencyGraph.ofString (blocks.get ⟨j, hj⟩) none zb sep =
            .ok (gs.get ⟨j, hj2⟩)
          ∧ rootInvariant (gs.get ⟨j, hj2⟩))
    ∧ (∀ j (hj : j < blocks.length) (e : PyErr),
      (∀ i (hi : i < j), ∃ gi,
        DependencyGraph.ofString (blocks.get ⟨i, by omega⟩) none zb sep = .ok gi) →
      DependencyGraph.ofString (blocks.get ⟨j, hj⟩) none zb sep = .error e →
      DependencyGraph.load content zb sep = .error e) := by
  constructor
  · intro gs hload
    unfold DependencyGraph.load at hload
    rw [hsplit] at hload
    obtain ⟨hlen, hall⟩ := loadBlocks_ok zb sep blocks gs hload
    refine ⟨hlen, ?_⟩
    intro j hj hj2
    have hblock := hall j hj hj2
    exact ⟨hblock, ofString_root_inv _ _ _ _
      (hne _ (List.get_mem _ _ _)) hblock⟩
  · intro j hj e hpre herr
    unfold DependencyGraph.load
    rw [hsplit]
    exact loadBlocks_err zb sep blocks j hj e hpre herr

/-- C4 witness: a two-block file parses to two graphs; replacing the
second block with a rootless record fails the whole load with the
missing-root error. -/
theorem claim_C4_witness :
    (pySplitOn "a\tT\t0\tROOT\n\nb\tX\t0\tROOT" "\n\n" =
      ["a\tT\t0\tROOT", "b\tX\t0\tROOT"])
    ∧ (∀ gs, DependencyGraph.load "a\tT\t0\tROOT\n\nb\tX\t0\tROOT" false none = .ok gs →
        gs.length = 2
        ∧ ∀ j (hj : j < (["a\tT\t0\tROOT", "b\tX\t0\tROOT"] : List String).length)
            (hj2 : j < gs.length),
            DependencyGraph.ofString
                ((["a\tT\t0\tROOT", "b\tX\t0\tROOT"] : List String).get ⟨j, hj⟩)
                none false none = .ok (gs.get ⟨j, hj2⟩)
            ∧ rootInvariant (gs.get ⟨j, hj2⟩))
    ∧ DependencyGraph.load "a\tT\t0\tROOT\n\nb\tX\t1\tNMOD" false none =
        .error .dependencyGraphError := by
  have h4 := claim_C4 "a\tT\t0\tROOT\n\nb\tX\t0\tROOT"
    ["a\tT\t0\tROOT", "b\tX\t0\tROOT"] false none (by decide) (by decide)
  have h5 := claim_C4 "a\tT\t0\tROOT\n\nb\tX\t1\tNMOD"
    ["a\tT\t0\tROOT", "b\tX\t1\tNMOD"] false none (by decide) (by decide)
  refine ⟨by decide, h4.1, ?_⟩
  exact h5.2 1 (by decide) .dependencyGraphError
    (fun i hi => ⟨graphOfParse "a\tT\t0\tROOT", by
      interval_cases i
      · exact rfl⟩)
    rfl

/-! ## Sorting lemmas for the serializer -/

theorem insortPair_perm (p : Int × Node) (l : List (Int × Node)) :
    List.Perm (insortPair p l) (p :: l) := by
  induction l with
  | nil => rfl
  | cons q t ih =>
    by_cases h : p.1 ≤ q.1
    · simp [insortPair, h]
    · simp only [insortPair, if_neg h]
      exact (ih.cons q).trans (List.Perm.swap p q t)

theorem sortNodes_perm (l : List (Int × Node)) :
    List.Perm (sortNodes l) l := by
  induction l with
  | nil => rfl
  | cons p t ih =>
    exact (insortPair_perm p (sortNodes t)).trans (ih.cons p)

theorem insortPair_sorted (p : Int × Node) (l : List (Int × Node))
    (h : List.Sorted (fun a b : Int × Node => a.1 ≤ b.1) l) :
    List.Sorted (fun a b : Int × Node => a.1 ≤ b.1) (insortPair p l) := by
  induction l with
  | nil => simp [insortPair]
  | cons q t ih =>
    rw [List.sorted_cons] at h
    obtain ⟨hq, ht⟩ := h
    by_cases hle : p.1 ≤ q.1
    · rw [insortPair, if_pos hle, List.sorted_cons]
      refine ⟨?_, by rw [List.sorted_cons]; exact ⟨hq, ht⟩⟩
      intro b hb
      rcases List.mem_cons.mp hb with hb | hb
      · subst hb; exact hle
      · exact le_trans hle (hq b hb)
    · rw [insortPair, if_neg hle, List.sorted_cons]
      refine ⟨?_, ih ht⟩
      intro b hb
      have hmem := (insortPair_perm p t).mem_iff.mp hb
      rcases List.mem_cons.mp hmem with hb2 | hb2
      · subst hb2; omega
      · exact hq b hb2

theorem sortNodes_sorted (l : List (Int × Node)) :
    List.Sorted (fun a b : Int × Node => a.1 ≤ b.1) (sortNodes l) := by
  induction l with
  | nil => simp [sortNodes]
  | cons p t ih => exact insortPair_sorted p (sortNodes t) ih

theorem lookupNode_eq_of_perm (l l' : List (Int × Node))
    (h : List.Perm l l') (hnodup : keysNodup l) (a : Int) :
    lookupNode l a = lookupNode l' a := by
  induction h with
  | nil => rfl
  | cons p htail ih =>
    obtain ⟨b, nd⟩ := p
    by_cases hb : b = a
    · subst hb; simp [lookupNode]
    · simp only [lookupNode, if_neg hb]
      refine ih ?_
      unfold keysNodup at hnodup ⊢
      simpa using (List.nodup_cons.mp (by simpa using hnodup)).2
  | swap p q t =>
    obtain ⟨b, nd⟩ := p
    obtain ⟨c, nd'⟩ := q
    have hbc : c ≠ b := by
      unfold keysNodup at hnodup
      simp only [List.map_cons, List.nodup_cons, List.mem_cons] at hnodup
      exact fun hcb => hnodup.1 (Or.inl hcb)
    have hcb2 : ¬b = c := fun hh => hbc hh.symm
    by_cases hb : c = a
    · subst hb
      simp [lookupNode, hbc, hcb2]
    · by_cases hc : b = a
      · subst hc
        have hcb : ¬c = b := hbc
        simp [lookupNode, hcb]
      · simp [lookupNode, hb, hc]
  | trans h1 h2 ih1 ih2 =>
    rename_i l1 l2 l3
    have hnodup2 : keysNodup l2 := by
      unfold keysNodup at hnodup ⊢
      exact (h1.map Prod.fst).nodup_iff.mp hnodup
    rw [ih1 hnodup, ih2 hnodup2]

theorem assoc_eq_keys_map (l : List (Int × Node)) (h : keysNodup l) :
    l = (l.map Prod.fst).map
      (fun a => (a, (lookupNode l a).getD emptyNode)) := by
  induction l with
  | nil => rfl
  | cons p t ih =>
    obtain ⟨b, nd⟩ := p
    unfold keysNodup at h
    simp only [List.map_cons, List.nodup_cons] at h
    obtain ⟨hb, ht⟩ := h
    simp only [List.map_cons]
    have h1 : lookupNode ((b, nd) :: t) b = some nd := by simp [lookupNode]
    have h2 : (t.map Prod.fst).map
          (fun a => (a, (lookupNode ((b, nd) :: t) a).getD emptyNode))
        = (t.map Prod.fst).map
          (fun a => (a, (lookupNode t a).getD emptyNode)) := by
      apply List.map_congr_left
      intro a ha
      have hba : ¬b = a := fun hba => hb (by rw [hba]; exact ha)
      simp [lookupNode, hba]
    rw [h1]
    dsimp only [Option.getD_some]
    rw [h2]
    exact congrArg _ (ih ht)

/-! ## Claim C8 -/

/-- Concatenation of a list of strings (`''.join`). -/
def strConcat : List String → String
  | [] => ""
  | s :: t => s ++ strConcat t

/-- The fields a style's template reads from a non-TOP node (the `tag`
check itself runs for every node). -/
def nodeRenderable (st : Style) (nd : Node) : Prop :=
  nd.tag.isSome = true ∧ (nd.tag ≠ some "TOP" →
    match st with
    | .s3 => nd.word.isSome = true ∧ nd.head.isSome = true
    | .s4 => nd.word.isSome = true ∧ nd.head.isSome = true
        ∧ nd.rel.isSome = true
    | .s10 => nd.word.isSome = true ∧ nd.lemma_.isSome = true
        ∧ nd.ctag.isSome = true ∧ nd.feats.isSome = true
        ∧ nd.head.isSome = true ∧ nd.rel.isSome = true)

instance (st : Style) (nd : Node) : Decidable (nodeRenderable st nd) := by
  unfold nodeRenderable
  cases st <;> exact instDecidableAnd

/-- The line the spec's per-style template prescribes for one
`(address, node)` pair (stated from the spec's wording; under
`nodeRenderable` every `getD` hits a present field). -/
def specLine : Style → Int × Node → String
  | .s3, (_, nd) =>
    nd.word.getD "" ++ "\t" ++ nd.tag.getD "" ++ "\t"
      ++ toString (nd.head.getD 0) ++ "\n"
  | .s4, (_, nd) =>
    nd.word.getD "" ++ "\t" ++ nd.tag.getD "" ++ "\t"
      ++ toString (nd.head.getD 0) ++ "\t" ++ nd.rel.getD "" ++ "\n"
  | .s10, (i, nd) =>
    toString i ++ "\t" ++ nd.word.getD "" ++ "\t" ++ nd.lemma_.getD ""
      ++ "\t" ++ nd.ctag.getD "" ++ "\t" ++ nd.tag.getD "" ++ "\t"
      ++ nd.feats.getD "" ++ "\t" ++ toString (nd.head.getD 0) ++ "\t"
      ++ nd.rel.getD "" ++ "\t_\t_" ++ "\n"

theorem to_conllAux_ok (st : Style) (L : List (Int × Node))
    (h : ∀ p ∈ L, nodeRenderable st p.2) :
    DependencyGraph.to_conllAux st L =
      .ok (strConcat ((L.filter (fun p => p.2.tag ≠ some "TOP")).map
        (specLine st))) := by
  induction L with
  | nil => rfl
  | cons p t ih =>
    obtain ⟨i, nd⟩ := p
    have hnode := h (i, nd) (by simp)
    unfold nodeRenderable at hnode
    dsimp only at hnode
    obtain ⟨htag, hrest⟩ := hnode
    rw [Option.isSome_iff_exists] at htag
    obtain ⟨tg, htg⟩ := htag
    have ihok := ih (fun q hq => h q (List.mem_cons_of_mem _ hq))
    by_cases htop : tg = "TOP"
    · subst htop
      rw [List.filter_cons_of_neg (by simp [htg])]
      simp only [DependencyGraph.to_conllAux, formatNode, reqS, htg, bind,
        Except.bind, if_pos rfl, ihok]
      rfl
    · have hne : (nd.tag ≠ some "TOP") := by simp [htg, htop]
      have hflds := hrest hne
      rw [List.filter_cons_of_pos (by simp [htg, htop])]
      cases st with
      | s3 =>
        obtain ⟨hw, hh⟩ := hflds
        rw [Option.isSome_iff_exists] at hw hh
        obtain ⟨w, hw⟩ := hw
        obtain ⟨hd, hh⟩ := hh
        simp only [DependencyGraph.to_conllAux, formatNode, reqS, reqI, htg,
          hw, hh, bind, Except.bind, if_neg htop, ihok]
        simp [specLine, strConcat, htg, hw, hh]
      | s4 =>
        obtain ⟨hw, hh, hr⟩ := hflds
        rw [Option.isSome_iff_exists] at hw hh hr
        obtain ⟨w, hw⟩ := hw
        obtain ⟨hd, hh⟩ := hh
        obtain ⟨r, hr⟩ := hr
        simp only [DependencyGraph.to_conllAux, formatNode, reqS, reqI, htg,
          hw, hh, hr, bind, Except.bind, if_neg htop, ihok]
        simp [specLine, strConcat, htg, hw, hh, hr]
      | s10 =>
        obtain ⟨hw, hl, hc, hf, hh, hr⟩ := hflds
        rw [Option.isSome_iff_exists] at hw hl hc hf hh hr
        obtain ⟨w, hw⟩ := hw
        obtain ⟨lm, hl⟩ := hl
        obtain ⟨c, hc⟩ := hc
        obtain ⟨f, hf⟩ := hf
        obtain ⟨hd, hh⟩ := hh
        obtain ⟨r, hr⟩ := hr
        simp only [DependencyGraph.to_conllAux, formatNode, reqS, reqI, htg,
          hw, hl, hc, hf, hh, hr, bind, Except.bind, if_neg htop, ihok]
        simp only [specLine, strConcat, htg, hw, hl, hc, hf, hh, hr,
          Option.getD_some]
        rw [show ("\t_\t_\n" : String) = "\t_\t_" ++ "\n" from rfl]
        simp [String.append_assoc]

/-- C8: `to_conll(style)` renders one line per non-TOP node, walking the
node map in ascending address order (the traversal is the key-sorted
permutation of the node list), each line the fixed per-style template
applied to the node's fields and terminated by a newline; any style other
than 3, 4 and 10 raises the same unsupported-format `ValueError` the
parser uses. -/
theorem claim_C8 (g : DependencyGraph) (style : Int) :
    (styleOf style = none →
      g.to_conll style = .error (.valueErrorFields style))
    ∧ (∀ st, styleOf style = some st →
      (∀ p ∈ g.nodes, nodeRenderable st p.2) →
      g.to_conll style = .ok (strConcat
          (((sortNodes g.nodes).filter (fun p => p.2.tag ≠ some "TOP")).map
            (specLine st)))
        ∧ List.Sorted (fun a b : Int × Node => a.1 ≤ b.1) (sortNodes g.nodes)
        ∧ List.Perm (sortNodes g.nodes) g.nodes
        ∧ ((sortNodes g.nodes).filter (fun p => p.2.tag ≠ some "TOP")).length
            = (g.nodes.filter (fun p => p.2.tag ≠ some "TOP")).length
        ∧ ∀ p, ∃ body, specLine st p = body ++ "\n") := by
  constructor
  · intro hnone
    unfold DependencyGraph.to_conll
    rw [hnone]
  · intro st hst hrend
    refine ⟨?_, sortNodes_sorted g.nodes, sortNodes_perm g.nodes, ?_, ?_⟩
    · unfold DependencyGraph.to_conll
      rw [hst]
      exact to_conllAux_ok st (sortNodes g.nodes)
        (fun p hp => hrend p ((sortNodes_perm g.nodes).mem_iff.mp hp))
    · exact ((sortNodes_perm g.nodes).filter _).length_eq
    · intro p
      obtain ⟨i, nd⟩ := p
      cases st with
      | s3 => exact ⟨_, rfl⟩
      | s4 => exact ⟨_, rfl⟩
      | s10 => exact ⟨_, rfl⟩

/-- C8 witness: the graph parsed from `a T 0 ROOT` serialized with styles
5 (unsupported) and 4 (supported). -/
theorem claim_C8_witness :
    (styleOf 5 = none →
      (graphOfParse "a\tT\t0\tROOT").to_conll 5 =
        .error (.valueErrorFields 5))
    ∧ (styleOf 5 = none)
    ∧ (styleOf 4 = some .s4)
    ∧ (∀ p ∈ (graphOfParse "a\tT\t0\tROOT").nodes, nodeRenderable .s4 p.2)
    ∧ ((graphOfParse "a\tT\t0\tROOT").to_conll 4 = .ok (strConcat
          (((sortNodes (graphOfParse "a\tT\t0\tROOT").nodes).filter
            (fun p => p.2.tag ≠ some "TOP")).map (specLine .s4)))
       ∧ List.Sorted (fun a b : Int × Node => a.1 ≤ b.1)
           (sortNodes (graphOfParse "a\tT\t0\tROOT").nodes)
       ∧ List.Perm (sortNodes (graphOfParse "a\tT\t0\tROOT").nodes)
           (graphOfParse "a\tT\t0\tROOT").nodes
       ∧ ((sortNodes (graphOfParse "a\tT\t0\tROOT").nodes).filter
            (fun p => p.2.tag ≠ some "TOP")).length
          = ((graphOfParse "a\tT\t0\tROOT").nodes.filter
            (fun p => p.2.tag ≠ some "TOP")).length
       ∧ ∀ p, ∃ body, specLine .s4 p = body ++ "\n") :=
  ⟨(claim_C8 (graphOfParse "a\tT\t0\tROOT") 5).1, rfl, rfl, by decide,
   (claim_C8 (graphOfParse "a\tT\t0\tROOT") 4).2 .s4 rfl (by decide)⟩

/-! ## Claim C2 -/

/-- The ten cells of a well-formed CoNLL-10 line, named, together with the
numeric value of the head cell. -/
structure Conll10Row where
  id : String
  word : String
  lemma_ : String
  ctag : String
  tag : String
  feats : String
  headS : String
  rel : String
  c9 : String
  c10 : String
  headVal : Int
deriving DecidableEq, Repr

/-- The cells of the row, in file order. -/
def rowCells (r : Conll10Row) : List String :=
  [r.id, r.word, r.lemma_, r.ctag, r.tag, r.feats, r.headS, r.rel, r.c9, r.c10]

/-- The line data the 10-cell extractor produces from the row
(`zero_based = false`). -/
def rowData (r : Conll10Row) : LineData :=
  ⟨r.word, r.lemma_, r.ctag, r.tag, r.feats, r.headVal, r.rel⟩

/-- The style-10 output line for the row at (1-based) index `i`, holding
the row's own `word, lemma, ctag, tag, feats, head, rel` cells. -/
def conllLine10 (i : Int) (r : Conll10Row) : String :=
  toString i ++ "\t" ++ r.word ++ "\t" ++ r.lemma_ ++ "\t" ++ r.ctag ++ "\t"
    ++ r.tag ++ "\t" ++ r.feats ++ "\t" ++ r.headS ++ "\t" ++ r.rel
    ++ "\t_\t_\n"

/-- The whole style-10 output for rows numbered from `i`. -/
def conllLines : Int → List Conll10Row → String
  | _, [] => ""
  | i, r :: t => conllLine10 i r ++ conllLines (i + 1) t

theorem strEmptyAppend (s : String) : "" ++ s = s := by
  obtain ⟨d⟩ := s
  rfl

theorem contrib_ne_nil (ds : List LineData) (a : Int) (r : String) :
    ∀ (i : Int), (∃ d ∈ ds, d.head = a ∧ d.rel = r) →
    contrib i ds a r ≠ [] := by
  induction ds with
  | nil =>
    intro i h
    obtain ⟨d, hd, _⟩ := h
    exact absurd hd (by simp)
  | cons d t ih =>
    intro i h
    by_cases hd : d.head = a ∧ d.rel = r
    · simp [contrib, hd]
    · obtain ⟨d', hd', hprop⟩ := h
      rcases List.mem_cons.mp hd' with h1 | h1
      · subst h1
        exact absurd hprop hd
      · simp only [contrib, if_neg hd, List.nil_append]
        exact ih (i + 1) ⟨d', h1, hprop⟩

theorem mem_lookupNode (l : List (Int × Node)) (a : Int) (nd : Node)
    (hnodup : keysNodup l) (h : (a, nd) ∈ l) : lookupNode l a = some nd := by
  induction l with
  | nil => exact absurd h (by simp)
  | cons p t ih =>
    obtain ⟨b, nd'⟩ := p
    unfold keysNodup at hnodup
    simp only [List.map_cons, List.nodup_cons] at hnodup
    obtain ⟨hb, ht⟩ := hnodup
    rcases List.mem_cons.mp h with h1 | h1
    · rw [Prod.mk.injEq] at h1
      obtain ⟨h1a, h1b⟩ := h1
      subst h1a
      subst h1b
      simp [lookupNode]
    · have hba : ¬b = a := by
        intro hba
        subst hba
        exact hb (by simpa using List.mem_map_of_mem Prod.fst h1)
      rw [lookupNode, if_neg hba]
      exact ih ht h1

theorem forall₂_rows (ls : List String) (rows : List Conll10Row)
    (hcells : List.Forall₂ (fun l r => pySplitCells none l = rowCells r) ls rows)
    (hint : ∀ r ∈ rows, pyInt r.headS = some r.headVal) :
    List.Forall₂ (fun l d => lineExtract none extract_10_cells false l = some d)
      ls (rows.map rowData) := by
  induction hcells with
  | nil => exact .nil
  | cons h1 htail ih =>
    rename_i l r lt rt
    refine .cons ?_ (ih (fun x hx => hint x (List.mem_cons_of_mem _ hx)))
    have hr := hint r (by simp)
    simp [lineExtract, h1, rowCells, extract_10_cells, hr, rowData]

theorem sortNodes_keys_range (G : DependencyGraph) (N : Nat)
    (hnodup : keysNodup G.nodes)
    (hbound : ∀ a : Int, (lookupNode G.nodes a).isSome = true ↔
      (0 ≤ a ∧ a ≤ (N : Int))) :
    (sortNodes G.nodes).map Prod.fst =
      (List.range' 0 (N + 1)).map (fun k : Nat => (k : Int)) := by
  have hnodup1 : ((sortNodes G.nodes).map Prod.fst).Nodup := by
    unfold keysNodup at hnodup
    exact (((sortNodes_perm G.nodes).map Prod.fst).nodup_iff).mpr hnodup
  have hnodup2 : ((List.range' 0 (N + 1)).map (fun k : Nat => (k : Int))).Nodup :=
    (List.nodup_range' 0 (N + 1)).map Nat.cast_injective
  refine List.eq_of_perm_of_sorted (r := (fun a b : Int => a ≤ b)) ?_ ?_ ?_
  · rw [List.perm_ext_iff_of_nodup hnodup1 hnodup2]
    intro a
    constructor
    · intro ha
      have hmem : a ∈ G.nodes.map Prod.fst :=
        ((sortNodes_perm G.nodes).map Prod.fst).mem_iff.mp ha
      have hsome := (lookupNode_isSome_iff_mem G.nodes a).mpr hmem
      obtain ⟨h0, hN⟩ := (hbound a).mp hsome
      rw [List.mem_map]
      refine ⟨a.toNat, ?_, by omega⟩
      rw [List.mem_range'_1]
      omega
    · intro ha
      rw [List.mem_map] at ha
      obtain ⟨k, hk, hka⟩ := ha
      rw [List.mem_range'_1] at hk
      have hsome : (lookupNode G.nodes a).isSome = true := by
        rw [hbound a]
        omega
      have hmem := (lookupNode_isSome_iff_mem G.nodes a).mp hsome
      exact ((sortNodes_perm G.nodes).map Prod.fst).mem_iff.mpr hmem
  · exact List.Pairwise.map Prod.fst (fun a b h => h) (sortNodes_sorted G.nodes)
  · exact List.Pairwise.map (fun k : Nat => (k : Int))
      (fun a b h => by show (a : Int) ≤ (b : Int); exact_mod_cast h)
      (List.pairwise_le_range' 0 (N + 1))

theorem sortNodes_eq_range (G : DependencyGraph) (N : Nat)
    (hnodup : keysNodup G.nodes)
    (hbound : ∀ a : Int, (lookupNode G.nodes a).isSome = true ↔
      (0 ≤ a ∧ a ≤ (N : Int))) :
    sortNodes G.nodes = ((List.range' 0 (N + 1)).map (fun k : Nat => (k : Int))).map
      (fun a => (a, (lookupNode G.nodes a).getD emptyNode)) := by
  have hnodupS : keysNodup (sortNodes G.nodes) := by
    unfold keysNodup at hnodup ⊢
    exact (((sortNodes_perm G.nodes).map Prod.fst).nodup_iff).mpr hnodup
  have hrec := assoc_eq_keys_map (sortNodes G.nodes) hnodupS
  rw [sortNodes_keys_range G N hnodup hbound] at hrec
  rw [hrec]
  apply List.map_congr_left
  intro a _
  rw [lookupNode_eq_of_perm (sortNodes G.nodes) G.nodes
    (sortNodes_perm G.nodes) hnodupS a]

theorem to_conllAux_rows (G : DependencyGraph) :
    ∀ (rows : List Conll10Row) (j : Nat),
    (∀ i (hi : i < rows.length),
      scalarFields ((lookupNode G.nodes ((j + 1 + i : Nat) : Int)).getD emptyNode)
        = parsedScalar ((j + 1 + i : Nat) : Int) (rowData (rows.get ⟨i, hi⟩))) →
    (∀ r ∈ rows, r.headS = toString r.headVal ∧ r.tag ≠ "TOP") →
    DependencyGraph.to_conllAux .s10 ((List.range' (j + 1) rows.length).map
      (fun k : Nat => ((k : Int), (lookupNode G.nodes (k : Int)).getD emptyNode)))
      = .ok (conllLines ((j : Int) + 1) rows) := by
  intro rows
  induction rows with
  | nil =>
    intro j _ _
    rfl
  | cons row t ih =>
    intro j hfield hvalid
    obtain ⟨hheadS, htop⟩ := hvalid row (by simp)
    have h0 := hfield 0 (by simp)
    simp only [Nat.add_zero, List.get] at h0
    simp only [scalarFields, parsedScalar, rowData, Prod.mk.injEq] at h0
    obtain ⟨ha0, hw0, hl0, hc0, ht0, hf0, hh0, hr0⟩ := h0
    rw [List.length_cons, List.range'_succ, List.map_cons]
    rw [DependencyGraph.to_conllAux]
    simp only [bind, Except.bind, formatNode, reqS, reqI, ht0, hw0, hl0, hc0,
      hf0, hh0, hr0, if_neg htop]
    have hrest := ih (j + 1)
      (fun i hi => by
        have hx := hfield (i + 1) (by simpa using Nat.succ_lt_succ hi)
        have harith : j + 1 + (i + 1) = j + 1 + 1 + i := by omega
        rw [harith] at hx
        simpa [List.get] using hx)
      (fun r hr => hvalid r (List.mem_cons_of_mem _ hr))
    rw [hrest]
    simp only [conllLines, conllLine10]
    have hcast : ((j + 1 : Nat) : Int) = (j : Int) + 1 := by push_cast; ring
    rw [hcast, hheadS]
    rfl

/-- C2: for valid CoNLL-10 text — newline-separated clean lines, ten
whitespace-separated cells each, canonical in-range head numerals
(`0 ≤ head ≤ N`), no token tagged with the reserved sentinel tag `"TOP"`,
and some line attaching to the virtual root (`head 0`, `rel "ROOT"`) — the
constructor parses it and `to_conll(10)` reproduces, line by line in input
order, the input's own `word, lemma, ctag, tag, feats, head, rel` cells
(the two trailing `_` columns and the id column are regenerated). -/
theorem claim_C2 (text : String) (ls : List String) (rows : List Conll10Row)
    (htext : pySplitOn text "\n" = ls) (hne : text ≠ "")
    (hclean : ∀ l ∈ ls, pyRstrip l = l ∧ l ≠ "")
    (hcells : List.Forall₂ (fun l r => pySplitCells none l = rowCells r) ls rows)
    (hvalid : ∀ r ∈ rows, pyInt r.headS = some r.headVal
        ∧ r.headS = toString r.headVal
        ∧ 0 ≤ r.headVal ∧ r.headVal ≤ (rows.length : Int)
        ∧ r.tag ≠ "TOP")
    (hroot : ∃ r ∈ rows, r.headVal = 0 ∧ r.rel = "ROOT") :
    ∃ G, DependencyGraph.ofString text none false none = .ok G
      ∧ G.to_conll 10 = .ok (conllLines 1 rows) := by
  have hlen : ls.length = rows.length := hcells.length_eq
  obtain ⟨r0, hr0mem, hr0head, hr0rel⟩ := hroot
  have hrowsne : rows ≠ [] := List.ne_nil_of_mem hr0mem
  have hlsne : ls ≠ [] := by
    intro h
    subst h
    exact hrowsne (List.eq_nil_of_length_eq_zero hlen.symm)
  obtain ⟨l1, lrest, hls⟩ := List.exists_cons_of_ne_nil hlsne
  have hfil : (ls.map pyRstrip).filter (fun l => l ≠ "") = ls :=
    filter_clean ls hclean
  -- the first line has ten cells, selecting the 10-cell extractor
  have hsel : extractors (pySplitCells none l1).length = some extract_10_cells := by
    subst hls
    cases hcells with
    | cons h1 _ =>
      rename_i r1 rrest
      rw [h1]
      rfl
  -- the constructor call equals the custom-extractor parse
  have heq : DependencyGraph.parseInput DependencyGraph.init ls none false none =
      DependencyGraph.parseInput DependencyGraph.init ls
        (some extract_10_cells) false none := by
    refine (claim_C5 DependencyGraph.init false none ls l1 lrest ?_).1
      extract_10_cells hsel
    rw [hfil, hls]
  have hf := forall₂_rows ls rows hcells (fun r hr => (hvalid r hr).1)
  have hchar := parseInput_char false none extract_10_cells ls ls
    (rows.map rowData) hfil hf
  have hcontrib : contrib 1 (rows.map rowData) 0 "ROOT" ≠ [] := by
    refine contrib_ne_nil (rows.map rowData) 0 "ROOT" 1
      ⟨rowData r0, List.mem_map_of_mem rowData hr0mem, ?_, ?_⟩
    · exact hr0head
    · exact hr0rel
  cases hc : contrib 1 (rows.map rowData) 0 "ROOT" with
  | nil => exact absurd hc hcontrib
  | cons rr rtail =>
    obtain ⟨G, hok, hroot', hgood, hnodup, hC, hE, hF, h0⟩ :=
      hchar.2 rr rtail hc
    have hdsLen : (rows.map rowData).length = rows.length := List.length_map _ _
    -- presence is exactly the address interval [0, N]
    have hbound : ∀ a : Int, (lookupNode G.nodes a).isSome = true ↔
        (0 ≤ a ∧ a ≤ (rows.length : Int)) := by
      intro a
      rw [hE a]
      simp only [Bool.or_eq_true, decide_eq_true_eq, List.any_eq_true,
        beq_iff_eq, hdsLen]
      constructor
      · intro hh
        rcases hh with (hh | hh) | hh
        · omega
        · omega
        · obtain ⟨d, hd, hda⟩ := hh
          rw [List.mem_map] at hd
          obtain ⟨r, hr, hrd⟩ := hd
          obtain ⟨_, _, hge, hle, _⟩ := hvalid r hr
          rw [← hrd] at hda
          simp only [rowData] at hda
          omega
      · intro hh
        by_cases ha : a = 0
        · exact Or.inl (Or.inl ha.symm)
        · exact Or.inl (Or.inr (by omega))
    -- the per-address field facts feeding the serializer
    have hfield : ∀ i (hi : i < rows.length),
        scalarFields ((lookupNode G.nodes ((0 + 1 + i : Nat) : Int)).getD emptyNode)
          = parsedScalar ((0 + 1 + i : Nat) : Int)
              (rowData (rows.get ⟨i, hi⟩)) := by
      intro i hi
      have hi' : i < (rows.map rowData).length := by rw [hdsLen]; exact hi
      obtain ⟨nd, hnd, hsc⟩ := hC i hi'
      have hidx : ((0 + 1 + i : Nat) : Int) = 1 + (i : Int) := by push_cast; ring
      rw [hidx, hnd, Option.getD_some, hsc]
      congr 1
      simp [List.get_eq_getElem, List.getElem_map]
    -- the sorted traversal is the interval [0, N]
    have hsort := sortNodes_eq_range G rows.length hnodup hbound
    -- node 0 carries the TOP tag
    have hnd0 : ∃ nd0, lookupNode G.nodes 0 = some nd0
        ∧ nd0.tag = some "TOP" := by
      have hsome : (lookupNode G.nodes 0).isSome = true := by
        rw [hbound 0]
        constructor
        · omega
        · positivity
      rw [Option.isSome_iff_exists] at hsome
      obtain ⟨nd0, hnd0⟩ := hsome
      refine ⟨nd0, hnd0, ?_⟩
      have := h0 nd0 hnd0
      simp only [scalarFields, topNode, Prod.mk.injEq] at this
      exact this.2.2.2.2.1
    obtain ⟨nd0, hnd0, htag0⟩ := hnd0
    refine ⟨G, ?_, ?_⟩
    · unfold DependencyGraph.ofString
      rw [if_neg hne, htext, heq]
      exact hok
    · unfold DependencyGraph.to_conll
      rw [show styleOf 10 = some Style.s10 from rfl]
      rw [hsort]
      rw [List.range'_succ 0 rows.length 1]
      rw [List.map_cons, List.map_cons]
      dsimp only
      rw [DependencyGraph.to_conllAux]
      simp only [bind, Except.bind, formatNode, reqS, Nat.cast_zero, hnd0,
        Option.getD_some, htag0, if_pos rfl, eq_self_iff_true, if_true]
      have haux := to_conllAux_rows G rows 0 hfield
        (fun r hr => ⟨(hvalid r hr).2.1, (hvalid r hr).2.2.2.2⟩)
      have haux2 : DependencyGraph.to_conllAux Style.s10
          (List.map ((fun a : Int => (a, (lookupNode G.nodes a).getD emptyNode))
            ∘ (fun k : Nat => (k : Int))) (List.range' (0 + 1) rows.length)) =
          Except.ok (conllLines ((0 : Nat) + 1) rows) := haux
      rw [List.map_map, haux2]
      dsimp only [Option.getD_none]
      rw [strEmptyAppend]
      norm_num

/-- C2 witness: a concrete two-token CoNLL-10 record round-trips. -/
theorem claim_C2_witness :
    (pySplitOn "1\tJohn\tjohn\tN\tNNP\t_\t2\tSBJ\t_\t_\n2\tloves\tlove\tV\tVBZ\t_\t0\tROOT\t_\t_" "\n" =
      ["1\tJohn\tjohn\tN\tNNP\t_\t2\tSBJ\t_\t_", "2\tloves\tlove\tV\tVBZ\t_\t0\tROOT\t_\t_"])
    ∧ ∃ G, DependencyGraph.ofString
        "1\tJohn\tjohn\tN\tNNP\t_\t2\tSBJ\t_\t_\n2\tloves\tlove\tV\tVBZ\t_\t0\tROOT\t_\t_"
        none false none = .ok G
      ∧ G.to_conll 10 = .ok (conllLines 1
          [⟨"1", "John", "john", "N", "NNP", "_", "2", "SBJ", "_", "_", 2⟩,
           ⟨"2", "loves", "love", "V", "VBZ", "_", "0", "ROOT", "_", "_", 0⟩]) :=
  ⟨by decide,
   claim_C2
     "1\tJohn\tjohn\tN\tNNP\t_\t2\tSBJ\t_\t_\n2\tloves\tlove\tV\tVBZ\t_\t0\tROOT\t_\t_"
     ["1\tJohn\tjohn\tN\tNNP\t_\t2\tSBJ\t_\t_", "2\tloves\tlove\tV\tVBZ\t_\t0\tROOT\t_\t_"]
     [⟨"1", "John", "john", "N", "NNP", "_", "2", "SBJ", "_", "_", 2⟩,
      ⟨"2", "loves", "love", "V", "VBZ", "_", "0", "ROOT", "_", "_", 0⟩]
     (by decide) (by decide) (by decide)
     (.cons (by decide) (.cons (by decide) .nil))
     (by decide) (by decide)⟩
